import Mathlib

/-!
# Verification of the PHANTOM block-DAG repository

This file is a shallow embedding, in Lean 4, of the core of the PHANTOM
block-DAG repository (the `lazy_set` package, the brute-force `PHANTOM` DAG,
the incremental `GreedyPHANTOM` DAG, the `CompetingChainGreedyPHANTOM`
malicious variant, and the `Blockchain` baseline), together with theorems
settling a fixed list of claims about that code.

Conventions of the embedding:

* Python `int` block identifiers (global ids) are `ℕ` (all ids appearing in
  the repository's tests are small non-negative integers; ordering and
  equality are all the code uses).
* Python `set`s of ids are `Finset ℕ`; iteration over a set of small ints is
  modelled as ascending order (CPython's behaviour for small ints), and
  `sorted(...)` is the ascending listing `sortAsc`.
* Python `dict`s keyed by ids are insertion-ordered association lists
  `List (ℕ × α)`; assignment updates in place or appends.
* `collections.ChainMap` is a list of such association lists, searched in
  order; `maps.append` appends at the end, `maps.pop()` removes the end.
* Unbounded `while` loops walking the DAG are given explicit fuel that is
  provably sufficient on the acyclic states the code runs on.
* A Python statement that raises (`KeyError` on a missing node attribute)
  is modelled with `Except String`; the pure result discards the partially
  mutated state, which is adequate here because every claim about a raising
  call only needs the fact that the call does not complete normally.
-/

/-- Ascending listing of a finite set of naturals (Python's `sorted(...)`
on a set of small ints).  Implemented as a bounded range filter so that it
reduces inside the kernel (Mathlib's `Finset.sort` rests on a well-founded
merge sort, which kernel reduction cannot unfold). -/
def sortAsc (s : Finset ℕ) : List ℕ :=
  match s.max with
  | ⊥ => []
  | some m => (List.range (m + 1)).filter (fun x => decide (x ∈ s))

/-! ## LazySet (`lazy_set/lazy_set.py`)

`LazySet` keeps `self._sets : list` of layer sets and
`self._positive_indices : set` of the indices of the positive (union)
layers; indices not in the set are negative (difference) layers. -/

/-- The `LazySet` state: the layer list `sets` and the set
`positiveIndices` of indices of positive layers, exactly as stored by
`lazy_set.py`. -/
structure LazySet where
  sets : List (Finset ℕ)
  positiveIndices : Finset ℕ
deriving DecidableEq

namespace LazySet

/-- `LazySet()` — a fresh empty lazy set (the constructor's default
arguments contribute only empty layers, which `lazy_update` and
`lazy_difference_update` skip). -/
def empty : LazySet := ⟨[], ∅⟩

/-- `lazy_update(other)`: append `other` as a positive layer, skipping the
append when `other` is empty (Python's `if other:`). -/
def lazy_update (L : LazySet) (other : Finset ℕ) : LazySet :=
  if other = ∅ then L
  else ⟨L.sets ++ [other], insert L.sets.length L.positiveIndices⟩

/-- `lazy_difference_update(other)`: append `other` as a negative layer,
skipping the append when `other` is empty. -/
def lazy_difference_update (L : LazySet) (other : Finset ℕ) : LazySet :=
  if other = ∅ then L
  else ⟨L.sets ++ [other], L.positiveIndices⟩

/-- `LazySet(base_set, negative_sets, positive_sets)`: the constructor
applies `lazy_update(base_set)`, then `lazy_difference_update` for each
negative set, then `lazy_update` for each positive set, in order. -/
def mk' (base : Finset ℕ) (negs poss : List (Finset ℕ)) : LazySet :=
  (poss.foldl lazy_update ((negs.foldl lazy_difference_update (empty.lazy_update base))))

/-- `add(elem)` = `update({elem})` = `lazy_update({elem})`. -/
def addElem (L : LazySet) (x : ℕ) : LazySet := L.lazy_update {x}

/-- `clear()`: drop all layers. -/
def clear (_ : LazySet) : LazySet := ⟨[], ∅⟩

/-- `__contains__(item)`: scan the layers from the latest to the earliest;
the first layer containing the item decides membership (positive layer ⇒
member, negative ⇒ not a member); no layer ⇒ not a member. -/
def contains (L : LazySet) (x : ℕ) : Bool :=
  match L.sets.enum.reverse.find? (fun p => decide (x ∈ p.2)) with
  | some p => p.1 ∈ L.positiveIndices
  | none => false

/-- One step of `__iter__`'s bookkeeping over an (original-index, layer)
list that is already in latest-to-earliest order: a negative layer only
extends the `do_not_yield` set, a positive layer yields its members not yet
in `do_not_yield` (in ascending order, as CPython iterates small-int sets)
and then extends `do_not_yield`. -/
def iterAux (pos : Finset ℕ) : List (ℕ × Finset ℕ) → Finset ℕ → List ℕ
  | [], _ => []
  | (i, s) :: rest, dny =>
    if i ∈ pos then sortAsc (s \ dny) ++ iterAux pos rest (dny ∪ s)
    else iterAux pos rest (dny ∪ s)

/-- `list(iter(L))`: the full iteration order of the lazy set. -/
def iterList (L : LazySet) : List ℕ :=
  iterAux L.positiveIndices L.sets.enum.reverse ∅

/-- `len(L)`: counts the iteration. -/
def size (L : LazySet) : ℕ := L.iterList.length

/-- Truthiness of a `LazySet` (`if self._uncolored_unordered_antipast:`),
which Python resolves through `__len__`. -/
def nonempty (L : LazySet) : Bool := L.size ≠ 0

/-- `flatten_to_set(modify)`: find the first positive layer; if there is
none, return the empty set leaving the layers untouched; otherwise fold the
later layers onto it in order (union for positive, difference for
negative), clear the layer list and re-install the result with
`lazy_update` (which skips it when it is empty).  The `modify` flag only
controls whether the first positive Python set object is mutated in place
or copied; it does not change any value, so the embedding takes and
ignores it. -/
def flatten_to_set (L : LazySet) (_modify : Bool) : Finset ℕ × LazySet :=
  match L.sets.enum.find? (fun p => decide (p.1 ∈ L.positiveIndices)) with
  | none => (∅, L)
  | some (i, base) =>
    let r := ((L.sets.enum.drop (i + 1)).foldl
      (fun acc p => if p.1 ∈ L.positiveIndices then acc ∪ p.2 else acc \ p.2) base)
    (r, L.clear.lazy_update r)

/-- `flatten(modify)`: `flatten_to_set` for its effect on the layers. -/
def flatten (L : LazySet) (modify : Bool) : LazySet := (L.flatten_to_set modify).2

/-- The reference evaluation of a layered set, following the spec's words:
starting from the empty base, apply the layers in list order, union for a
positive layer and difference for a negative one.  (For a constructor call
`LazySet(base, negs, poss)` the layer order is exactly `base`, then the
negative sets, then the positive sets, so this fold coincides with
`base.difference(*negs).union(*poss)`.) -/
def refEval (L : LazySet) : Finset ℕ :=
  L.sets.enum.foldl
    (fun acc p => if p.1 ∈ L.positiveIndices then acc ∪ p.2 else acc \ p.2) ∅

/-- Whether the lazy set currently has at least one positive layer (the
condition under which `flatten_to_set` does not bail out early). -/
def hasPositiveLayer (L : LazySet) : Bool :=
  (L.sets.enum.find? (fun p => decide (p.1 ∈ L.positiveIndices))).isSome

/-- Proof helper: evaluation of an indexed layer list given in
latest-to-earliest order (the order `__contains__` and `__iter__` scan). -/
def peelEval (pos : Finset ℕ) : List (ℕ × Finset ℕ) → Finset ℕ
  | [] => ∅
  | (i, s) :: rest => if i ∈ pos then peelEval pos rest ∪ s else peelEval pos rest \ s

/-- Proof helper: the first-match membership scan of `__contains__`,
written recursively over a latest-to-earliest layer list. -/
def scanB (pos : Finset ℕ) (x : ℕ) : List (ℕ × Finset ℕ) → Bool
  | [] => false
  | (i, s) :: rest => if x ∈ s then decide (i ∈ pos) else scanB pos x rest

/-- The states of `LazySet` reachable from a fresh `LazySet()` by any
sequence of `lazy_update` and `lazy_difference_update` calls (note that the
constructor, `update`, `add`, `difference_update`, `discard`, … all reduce
to these two). -/
inductive Built : LazySet → Prop
  | empty : Built LazySet.empty
  | upd (S : Finset ℕ) {L : LazySet} : Built L → Built (L.lazy_update S)
  | diff (S : Finset ℕ) {L : LazySet} : Built L → Built (L.lazy_difference_update S)

end LazySet



/-! ## Block (`phantom/dag/block.py`)

A `Block` is a value: its global id (Python's `hash(block)` is the id
itself) and the set of its parents' global ids.  `size` and `data` play no
role in any claim and are omitted. -/

/-- A block: global id and parent ids. -/
structure Block where
  gid : ℕ
  parents : Finset ℕ
deriving DecidableEq

/-- First-match association-list lookup (a Python `dict` read). -/
def lookupList {α : Type} (l : List (ℕ × α)) (g : ℕ) : Option α :=
  (l.find? (fun p => p.1 = g)).map (fun p => p.2)

/-- Association-list assignment `d[g] = v`: update the existing entry in
place, or append a new one (Python dicts are insertion-ordered). -/
def setAssoc {α : Type} (l : List (ℕ × α)) (g : ℕ) (v : α) : List (ℕ × α) :=
  if (l.find? (fun p => p.1 = g)).isSome then
    l.map (fun p => if p.1 = g then (g, v) else p)
  else l ++ [(g, v)]

/-- Fueled graph reachability: BFS over an adjacency function, used for
`networkx.descendants` (past: follow parent edges) and
`networkx.ancestors` (future: follow child edges). -/
def reachAux (adj : ℕ → List ℕ) : ℕ → List ℕ → Finset ℕ → Finset ℕ
  | 0, _, vis => vis
  | _ + 1, [], vis => vis
  | fuel + 1, x :: queue, vis =>
    if x ∈ vis then reachAux adj fuel queue vis
    else reachAux adj fuel (queue ++ adj x) (insert x vis)

/-- `itertools.combinations(s, r)`: all `r`-element sublists of `s`, in the
order `itertools` produces them. -/
def combinations {α : Type} : ℕ → List α → List (List α)
  | 0, _ => [[]]
  | _ + 1, [] => []
  | r + 1, x :: xs => (combinations r xs).map (fun c => x :: c) ++ combinations (r + 1) xs

/-- The `powerset` helper of `PHANTOM._update_coloring_incrementally`:
`chain.from_iterable(combinations(s, r) for r in range(len(s) + 1))`. -/
def powersetList {α : Type} (l : List α) : List (List α) :=
  ((List.range (l.length + 1)).map (fun r => combinations r l)).join

/-! ## Brute-force PHANTOM (`phantom/phantom/phantom.py`)

The graph `self._G` is a `networkx.DiGraph` with an edge from each block to
each of its parents; `add_edge` silently creates missing endpoint nodes, so
a declared-but-never-added parent becomes a stub node.  Nodes are kept in
insertion order (networkx iteration order). -/

/-- The state of the brute-force `PHANTOM` DAG. -/
structure BFState where
  nodes : List ℕ
  parentsOf : List (ℕ × List ℕ)
  leaves : Finset ℕ
  coloring : Finset ℕ
  lids : List (ℕ × ℕ)
  genesisGid : Option ℕ
  k : ℤ
deriving DecidableEq

namespace BFState

/-- `PHANTOM(k)`. -/
def init (k : ℤ) : BFState := ⟨[], [], ∅, ∅, [], none, k⟩

/-- `global_id in self` (`__contains__`). -/
def containsGid (s : BFState) (g : ℕ) : Bool := g ∈ s.nodes

/-- `self._G.successors(g)`: the parents of `g`, in edge insertion order. -/
def successorsOf (s : BFState) (g : ℕ) : List ℕ := (lookupList s.parentsOf g).getD []

/-- `self._G.predecessors(g)`: the children of `g`. -/
def predecessorsOf (s : BFState) (g : ℕ) : List ℕ :=
  s.nodes.filter (fun c => g ∈ successorsOf s c)

/-- Fuel that covers every BFS the brute-force DAG runs. -/
def fuel (s : BFState) : ℕ := (s.nodes.length + 1) * (s.nodes.length + 1)

/-- `__get_past`: all ids reachable from `g` along parent edges. -/
def past (s : BFState) (g : ℕ) : Finset ℕ :=
  reachAux (successorsOf s) s.fuel (successorsOf s g) ∅

/-- `__get_future`: all ids that reach `g` along parent edges. -/
def future (s : BFState) (g : ℕ) : Finset ℕ :=
  reachAux (predecessorsOf s) s.fuel (predecessorsOf s g) ∅

/-- `__get_anticone`: everything outside `{g} ∪ past(g) ∪ future(g)`. -/
def anticone (s : BFState) (g : ℕ) : Finset ℕ :=
  s.nodes.toFinset \ (insert g (s.past g ∪ s.future g))

/-- `compute_blue_anticones` succeeds on a candidate coloring iff no block
of the coloring has more than `k` coloring blocks in its anticone. -/
def validColoring (s : BFState) (C : Finset ℕ) : Bool :=
  s.nodes.all (fun v => decide (¬(v ∈ C ∧ ((s.anticone v ∩ C).card : ℤ) > s.k)))

/-- `PHANTOM._update_coloring_incrementally`: enumerate the powerset of the
nodes in `itertools` order and keep the first valid coloring strictly
larger than every earlier valid one (`max_coloring` starts empty). -/
def updateColoring (s : BFState) : BFState :=
  let maxC := (powersetList s.nodes).foldl
    (fun acc c =>
      let C := c.toFinset
      if validColoring s C ∧ C.card > acc.card then C else acc) ∅
  { s with coloring := maxC }

/-- `TopologicalOrderer.get_topological_order`: depth-first from the given
leaves, visiting blue leaves first (ascending id), then red leaves
(ascending id), recursing into each leaf's parents before emitting the
leaf; threads the `self._ordered` set. -/
def topoOrder (succ : ℕ → List ℕ) (coloring : Finset ℕ) :
    ℕ → Finset ℕ → Finset ℕ → (List ℕ × Finset ℕ)
  | 0, _, ordered => ([], ordered)
  | fuel + 1, lv, ordered =>
    let lv2 := lv \ ordered
    if lv2 = ∅ then ([], ordered)
    else
      let blues := sortAsc (lv2 ∩ coloring)
      let reds := sortAsc (lv2 \ coloring)
      (blues ++ reds).foldl
        (fun acc leaf =>
          let r := topoOrder succ coloring fuel (succ leaf).toFinset (insert leaf acc.2)
          (acc.1 ++ r.1 ++ [leaf], r.2))
        ([], ordered)

/-- `PHANTOM._update_topological_order_incrementally`: recompute the order
from the leaves, set the genesis to the first ordered block, and write the
local ids. -/
def updateTopologicalOrder (s : BFState) : BFState :=
  let order := (topoOrder (successorsOf s) s.coloring s.fuel s.leaves ∅).1
  { s with
    genesisGid := order.head?,
    lids := order.enum.foldl (fun ls p => setAssoc ls p.2 p.1) s.lids }

/-- `PHANTOM.add(block)`: insert the node, add an edge to every declared
parent (creating stub nodes for parents never added, as
`networkx.add_edge` does), update the leaves, then recompute the coloring
and the topological order. -/
def addBlock (s : BFState) (b : Block) : BFState :=
  let nodes1 := if b.gid ∈ s.nodes then s.nodes else s.nodes ++ [b.gid]
  let sortedParents := sortAsc b.parents
  let nodes2 := sortedParents.foldl
    (fun ns p => if p ∈ ns then ns else ns ++ [p]) nodes1
  let oldEdges := (lookupList s.parentsOf b.gid).getD []
  let newEdges := oldEdges ++ sortedParents.filter (fun p => p ∉ oldEdges)
  let s1 : BFState :=
    { s with
      nodes := nodes2,
      parentsOf := setAssoc s.parentsOf b.gid newEdges,
      leaves := insert b.gid (s.leaves \ b.parents) }
  (s1.updateColoring).updateTopologicalOrder

/-- Insert a list of blocks in order. -/
def addAll (k : ℤ) (blocks : List Block) : BFState :=
  blocks.foldl addBlock (init k)

/-- `PHANTOM._get_local_id` (node attribute read; present for every node
after an add). -/
def lidOf (s : BFState) (g : ℕ) : ℕ := (lookupList s.lids g).getD 0

/-- `PHANTOM.is_a_before_b`: `None` when neither block is present, `True`
if only `a` is present, `False` if only `b` is present, otherwise the
comparison of local ids. -/
def is_a_before_b (s : BFState) (a b : ℕ) : Option Bool :=
  if ¬ s.containsGid a ∧ ¬ s.containsGid b then none
  else if s.containsGid a ∧ ¬ s.containsGid b then some true
  else if ¬ s.containsGid a ∧ s.containsGid b then some false
  else some (decide (s.lidOf a ≤ s.lidOf b))

end BFState

/-! ## GreedyPHANTOM (`phantom/phantom/greedy_phantom.py`)

Per-node attributes are a record; the DAG state mirrors the instance
fields.  One point needs emphasis because it shapes the whole engine:

`__init__` line 64 reads

  `self._antipast = ChainMap(self._antipast_order).keys() | self._uncolored_unordered_antipast`

`KeysView.__or__` (from `collections.abc.Set`, via `KeysView._from_iterable
= set`) materialises the union *eagerly* into a plain `set` at construction
time, when both operands are empty, and `self._antipast` is never assigned
again.  So `self._antipast` is the frozen empty set for the whole life of
the DAG: the membership test in `get_depth` (line 559) never fires, and
`_get_antipast` returns an empty view for the coloring tip (line 336) and
an empty base set otherwise (line 348).  The embedding keeps this as the
constant field `antipastFrozen = ∅`.  (The repository's own tests,
`test_greedy_coloring.py`, assert the behaviour the author intended for a
live view instead, e.g. `greedy_dag._antipast == {hash(genesis)}` after one
add; those assertions fail on this code.) -/

/-- The per-node attribute record of a `GreedyPHANTOM` node
(`_SELF_ORDER_INDEX_KEY`, `_COLORING_PARENT_KEY`, `_BLUE_DIFF_PAST_ORDER_KEY`,
`_RED_DIFF_PAST_ORDER_KEY`, `_HEIGHT_KEY`, `_BLUE_NUMBER_KEY`, and the
block's declared parents, kept ascending — the order `networkx` stores the
out-edges given that CPython iterates small-int sets ascending). -/
structure GNode where
  parents : List ℕ
  selfOrderIndex : Option ℤ
  coloringParent : Option ℕ
  blueDiffPast : List (ℕ × Option ℤ)
  redDiffPast : List (ℕ × Option ℤ)
  height : ℕ
  blueNumber : ℕ
deriving DecidableEq, Inhabited

/-- Keys of an insertion-ordered dict, as a finite set. -/
def keysOf (d : List (ℕ × Option ℤ)) : Finset ℕ := (d.map Prod.fst).toFinset

/-- `g in d` for an insertion-ordered dict. -/
def memDict (d : List (ℕ × Option ℤ)) (g : ℕ) : Bool := d.any (fun p => p.1 = g)

/-- The `GreedyPHANTOM` instance state.  `bluePastOrderMaps` and
`redPastOrderMaps` are the `maps` lists of the `_blue_past_order` and
`_red_past_order` ChainMaps (index 0 searched first; `ChainMap()` starts
with one empty dict; `maps.append` appends at the end and `maps.pop()`
removes the end).  `antipastFrozen` is `self._antipast` (see the section
comment: the constant empty set). -/
structure GState where
  k : ℤ
  nodes : List ℕ
  recs : List (ℕ × GNode)
  leaves : Finset ℕ
  coloringTipGid : Option ℕ
  coloringChain : Finset ℕ
  kChainGids : Finset ℕ
  kChainMinHeight : Option ℕ
  bluePastOrderMaps : List (List (ℕ × Option ℤ))
  redPastOrderMaps : List (List (ℕ × Option ℤ))
  blueAntipastOrder : List (ℕ × Option ℤ)
  redAntipastOrder : List (ℕ × Option ℤ)
  uncoloredUnorderedAntipast : LazySet
  antipastFrozen : Finset ℕ
  genesisGid : Option ℕ
deriving DecidableEq

namespace GState

/-- `GreedyPHANTOM(k)` — `kChainMinHeight = none` models the initial
`float('inf')`. -/
def ginit (k : ℤ) : GState :=
  { k := k, nodes := [], recs := [], leaves := ∅, coloringTipGid := none,
    coloringChain := ∅, kChainGids := ∅, kChainMinHeight := none,
    bluePastOrderMaps := [[]], redPastOrderMaps := [[]],
    blueAntipastOrder := [], redAntipastOrder := [],
    uncoloredUnorderedAntipast := LazySet.empty,
    antipastFrozen := ∅, genesisGid := none }

/-- The node attribute record of `g`, if `g` has been added. -/
def getRec (s : GState) (g : ℕ) : Option GNode := lookupList s.recs g

/-- Node attribute read.  On states reachable by successful adds every id
this is applied to has a record; the default (which a Python `KeyError`
would replace) is never reached there. -/
def recOf (s : GState) (g : ℕ) : GNode := (s.getRec g).getD default

/-- Write the node attribute record of `g`. -/
def setRec (s : GState) (g : ℕ) (n : GNode) : GState :=
  { s with recs := setAssoc s.recs g n }

/-- `self._G.successors(g)` — the parents of `g` in edge order. -/
def successorsOf (s : GState) (g : ℕ) : List ℕ := (s.recOf g).parents

/-- `self._G.predecessors(g)` — the children of `g` in node order. -/
def predecessorsOf (s : GState) (g : ℕ) : List ℕ :=
  s.nodes.filter (fun c => g ∈ (s.recOf c).parents)

/-- Fuel for the diff-past BFS. -/
def gfuel (s : GState) : ℕ := (s.nodes.length + 2) * (s.nodes.length + 2)

/-- Fuel for the topological-order work-list loop. -/
def topoFuel (s : GState) : ℕ :=
  (s.nodes.length + 2) * (s.nodes.length + 2) * (s.nodes.length + 2)

/-- ChainMap lookup over a list of dicts (first match wins). -/
def chainMapsLookup (maps : List (List (ℕ × Option ℤ))) (g : ℕ) :
    Option (Option ℤ) :=
  match maps with
  | [] => none
  | m :: rest =>
    match lookupList m g with
    | some v => some v
    | none => chainMapsLookup rest g

/-- Keys of a ChainMap (union over its maps). -/
def keysOfMaps (ms : List (List (ℕ × Option ℤ))) : Finset ℕ :=
  ms.foldl (fun acc m => acc ∪ keysOf m) ∅

/-- `self._mapping.get(g, None)`:
`_mapping = ChainMap(_past_order, _antipast_order)` with
`_past_order = ChainMap(_blue_past_order, _red_past_order)` and
`_antipast_order = ChainMap(_blue_antipast_order, _red_antipast_order)`. -/
def mappingGet (s : GState) (g : ℕ) : Option (Option ℤ) :=
  chainMapsLookup
    (s.bluePastOrderMaps ++ s.redPastOrderMaps ++
      [s.blueAntipastOrder, s.redAntipastOrder]) g

/-- `self._mapping.keys()`. -/
def mappingKeys (s : GState) : Finset ℕ :=
  keysOfMaps s.bluePastOrderMaps ∪ keysOfMaps s.redPastOrderMaps ∪
    keysOf s.blueAntipastOrder ∪ keysOf s.redAntipastOrder

/-- `self._coloring` = `ChainMap(_blue_past_order, _blue_antipast_order).keys()`
(the live keys view, before any lazy antipast coloring). -/
def coloringSetRaw (s : GState) : Finset ℕ :=
  keysOfMaps s.bluePastOrderMaps ∪ keysOf s.blueAntipastOrder

/-- `_coloring_chain_generator`: walk the coloring-parent links starting at
`g` (fueled; the fuel covers any chain in an acyclic state). -/
def chainFromAux (s : GState) : ℕ → Option ℕ → List ℕ
  | 0, _ => []
  | _, none => []
  | fuel + 1, some g => g :: chainFromAux s fuel (s.recOf g).coloringParent

/-- The coloring chain of `g` as a list, tip first. -/
def chainFrom (s : GState) (g : Option ℕ) : List ℕ :=
  chainFromAux s (s.nodes.length + 1) g

/-- Split a chain walk at its first member of the main coloring chain. -/
def splitAtChain (chain : Finset ℕ) : List ℕ → (List ℕ × Option ℕ)
  | [] => ([], none)
  | g :: rest =>
    if g ∈ chain then ([], some g)
    else
      let r := splitAtChain chain rest
      (g :: r.1, r.2)

/-- Prefix of a list up to (excluding) a sentinel element. -/
def untilElem (stop : Option ℕ) : List ℕ → List ℕ
  | [] => []
  | g :: rest => if some g = stop then [] else g :: untilElem stop rest

/-- `_local_tip_to_global_tip_generator`: walk the local tip's chain until
it meets the main coloring chain (yielding `(gid, False, False)` for each
block before the intersection and `(gid, True, True)` for the intersection
if reached), then walk the main chain from the global tip down to the
intersection (yielding `(gid, True, False)`); when there is no
intersection, the second walk runs through the whole main chain.  The
callers consume the generator while mutating `_coloring_chain`, but only
ever insert blocks already yielded or remove blocks the first walk cannot
revisit, so evaluating the generator eagerly against the entry state is
equivalent. -/
def localToGlobalChain (s : GState) (localTip : ℕ) : List (ℕ × Bool × Bool) :=
  let w := splitAtChain s.coloringChain (s.chainFrom (some localTip))
  let part1 := w.1.map (fun g => (g, false, false)) ++
    (match w.2 with
     | some i => [(i, true, true)]
     | none => [])
  let part2 := (untilElem w.2 (s.chainFrom s.coloringTipGid)).map
    (fun g => (g, true, false))
  part1 ++ part2

/-- `_get_extreme_blue(global_ids, bluest)`: Python's `max`/`min` with a
key over the ascending-sorted ids — the first id attaining the extreme
blue number, i.e. the smallest id among the extremal ones. -/
def getExtremeBlue (s : GState) (gids : Finset ℕ) (bluest : Bool) : Option ℕ :=
  match sortAsc gids with
  | [] => none
  | x :: xs =>
    some (xs.foldl
      (fun best y =>
        if bluest then
          if (s.recOf y).blueNumber > (s.recOf best).blueNumber then y else best
        else
          if (s.recOf y).blueNumber < (s.recOf best).blueNumber then y else best)
      x)

/-- `_get_bluest`. -/
def getBluest (s : GState) (gids : Finset ℕ) : Option ℕ := s.getExtremeBlue gids true

/-- `height < k_chain.minimal_height`, where `none` is `float('inf')`. -/
def ltMinHeight (h : ℕ) : Option ℕ → Bool
  | none => true
  | some m => h < m

/-- The loop of `_coloring_rule_2` over an explicit chain list. -/
def rule2Aux (s : GState) (kGids : Finset ℕ) (kMinH : Option ℕ) : List ℕ → Bool
  | [] => false
  | c :: rest =>
    if ltMinHeight (s.recOf c).height kMinH then false
    else if c ∈ kGids then true
    else rule2Aux s kGids kMinH rest

/-- `_coloring_rule_2(k_chain, g)`: `g` is blue iff its coloring chain
meets the k-chain before dropping below the k-chain's minimal height. -/
def coloringRule2 (s : GState) (kGids : Finset ℕ) (kMinH : Option ℕ) (g : ℕ) : Bool :=
  rule2Aux s kGids kMinH (s.chainFrom (some g))

/-- `_color_block`: assign `g` to the blue or the red order dict according
to rule 2. -/
def colorBlock (s : GState) (blueOrder redOrder : List (ℕ × Option ℤ))
    (kGids : Finset ℕ) (kMinH : Option ℕ) (g : ℕ) :
    List (ℕ × Option ℤ) × List (ℕ × Option ℤ) :=
  if s.coloringRule2 kGids kMinH g then (setAssoc blueOrder g none, redOrder)
  else (blueOrder, setAssoc redOrder g none)

/-- The loop of `_get_k_chain`. -/
def getKChainAux (s : GState) :
    List ℕ → ℤ → Finset ℕ → Option ℕ → (Finset ℕ × Option ℕ)
  | [], _, acc, mh => (acc, mh)
  | g :: rest, blueCount, acc, mh =>
    if blueCount > s.k then (acc, mh)
    else getKChainAux s rest (blueCount + (s.recOf g).blueDiffPast.length)
      (insert g acc) (some (s.recOf g).height)

/-- `_get_k_chain(g)`: collect chain blocks from `g` backwards while the
accumulated number of blue diff-past blocks stays within `k`; the minimal
height is the height of the last collected block (`inf` when none). -/
def getKChain (s : GState) (g : ℕ) : Finset ℕ × Option ℕ :=
  getKChainAux s (s.chainFrom (some g)) 0 ∅ none

/-- `_get_antipast(g)` as a membership view.  For `g = None` it is the
keys of `_mapping`; for the coloring tip it is the frozen `self._antipast`
(the empty set — see the section comment); otherwise a `LazySet` over the
frozen base with the main-side diff-pasts positive and the local-side and
intersection diff-pasts negative, positives first (constructor) and
negatives appended after. -/
def getAntipastView (s : GState) (g : Option ℕ) : LazySet :=
  match g with
  | none => LazySet.empty.lazy_update s.mappingKeys
  | some g =>
    if some g = s.coloringTipGid then LazySet.empty.lazy_update s.antipastFrozen
    else
      let entries := s.localToGlobalChain g
      let pos := entries.filterMap
        (fun e => if e.2.1 ∧ ¬e.2.2 then some e.1 else none)
      let neg := entries.filterMap
        (fun e => if ¬e.2.1 ∨ e.2.2 then some e.1 else none)
      let L0 := LazySet.empty.lazy_update s.antipastFrozen
      let L1 := pos.foldl
        (fun L c =>
          (L.lazy_update (keysOf (s.recOf c).blueDiffPast)).lazy_update
            (keysOf (s.recOf c).redDiffPast)) L0
      neg.foldl
        (fun L c =>
          (L.lazy_difference_update (keysOf (s.recOf c).blueDiffPast)).lazy_difference_update
            (keysOf (s.recOf c).redDiffPast)) L1

/-- The BFS loop of `_update_diff_coloring_of_block` (`deque.extendleft`
prepends the reversed successor list). -/
def updateDiffColoringAux (s : GState) (pa : LazySet) (kGids : Finset ℕ)
    (kMinH : Option ℕ) :
    ℕ → List ℕ → List (ℕ × Option ℤ) → List (ℕ × Option ℤ) →
    (List (ℕ × Option ℤ) × List (ℕ × Option ℤ))
  | 0, _, bd, rd => (bd, rd)
  | _ + 1, [], bd, rd => (bd, rd)
  | fuel + 1, g :: queue, bd, rd =>
    if memDict bd g ∨ memDict rd g ∨ ¬ pa.contains g then
      updateDiffColoringAux s pa kGids kMinH fuel queue bd rd
    else
      let queue2 := (s.successorsOf g).reverse ++ queue
      let r := s.colorBlock bd rd kGids kMinH g
      updateDiffColoringAux s pa kGids kMinH fuel queue2 r.1 r.2

/-- `_update_diff_coloring_of_block(g)`: color every ancestor of `g` lying
in the coloring parent's antipast, record the partition in `g`'s diff-past
dicts and add the blue count to `g`'s blue number. -/
def updateDiffColoringOfBlock (s : GState) (g : ℕ) : GState :=
  let kc := s.getKChain g
  let pa := s.getAntipastView (s.recOf g).coloringParent
  let r0 := s.updateDiffColoringAux pa kc.1 kc.2 s.gfuel (s.successorsOf g) [] []
  let r := s.recOf g
  s.setRec g { r with blueDiffPast := r0.1, redDiffPast := r0.2,
                      blueNumber := r.blueNumber + r0.1.length }

/-- `_is_a_bluer_than_b`. -/
def isABluerThanB (s : GState) (a b : ℕ) : Bool :=
  let an := (s.recOf a).blueNumber
  let bn := (s.recOf b).blueNumber
  decide (an > bn ∨ (an = bn ∧ a < b))

/-- `_is_max_coloring_tip`. -/
def isMaxColoringTip (s : GState) (g : ℕ) : Bool :=
  match s.coloringTipGid with
  | none => true
  | some t => s.isABluerThanB g t

/-- `_update_past_coloring_according_to(new_tip)`: re-enqueue the antipast
orders into the uncolored set and clear them; add the new tip to the
uncolored set (the old-tip re-add on lines 368-369 tests membership in the
antipast order that was just cleared, so it never fires and is embedded as
the never-taken test it is); walk to the old chain, removing stepped-off
main-chain blocks (popping their past-order maps into the uncolored set)
and adding stepped-on local-side blocks; then append the local-side
diff-pasts to the past orders and subtract them from the uncolored set;
finally set the tip and flatten the uncolored `LazySet` in place. -/
def updatePastColoringAccordingTo (s : GState) (newTip : ℕ) : GState :=
  let u1 := (s.uncoloredUnorderedAntipast.lazy_update
    (keysOf s.blueAntipastOrder)).lazy_update (keysOf s.redAntipastOrder)
  let s1 := { s with blueAntipastOrder := [], redAntipastOrder := [],
                     uncoloredUnorderedAntipast := u1 }
  let s2 := { s1 with uncoloredUnorderedAntipast :=
    s1.uncoloredUnorderedAntipast.addElem newTip }
  let s3 :=
    match s2.coloringTipGid with
    | some t =>
      if memDict s2.blueAntipastOrder t then
        { s2 with uncoloredUnorderedAntipast :=
          s2.uncoloredUnorderedAntipast.addElem t }
      else s2
    | none => s2
  let entries := s2.localToGlobalChain newTip
  let s4 := entries.foldl
    (fun st e =>
      if e.2.2 then st
      else if e.2.1 then
        let poppedB := st.bluePastOrderMaps.getLast?.getD []
        let poppedR := st.redPastOrderMaps.getLast?.getD []
        { st with coloringChain := st.coloringChain.erase e.1,
                  bluePastOrderMaps := st.bluePastOrderMaps.dropLast,
                  redPastOrderMaps := st.redPastOrderMaps.dropLast,
                  uncoloredUnorderedAntipast :=
                    (st.uncoloredUnorderedAntipast.lazy_update
                      (keysOf poppedB)).lazy_update (keysOf poppedR) }
      else { st with coloringChain := insert e.1 st.coloringChain }) s3
  let localSide := entries.filterMap
    (fun e => if ¬e.2.1 ∧ ¬e.2.2 then some e.1 else none)
  let s5 := localSide.foldl
    (fun st c =>
      let bd := (s2.recOf c).blueDiffPast
      let rd := (s2.recOf c).redDiffPast
      { st with bluePastOrderMaps := st.bluePastOrderMaps ++ [bd],
                redPastOrderMaps := st.redPastOrderMaps ++ [rd],
                uncoloredUnorderedAntipast :=
                  (st.uncoloredUnorderedAntipast.lazy_difference_update
                    (keysOf bd)).lazy_difference_update (keysOf rd) }) s4
  let s6 := { s5 with coloringTipGid := some newTip }
  { s6 with uncoloredUnorderedAntipast :=
    s6.uncoloredUnorderedAntipast.flatten true }

/-- `_update_antipast_coloring`: color every pending uncolored antipast id
by rule 2 against the current global k-chain, then clear the pending set. -/
def updateAntipastColoring (s : GState) : GState :=
  let r := s.uncoloredUnorderedAntipast.iterList.foldl
    (fun (acc : List (ℕ × Option ℤ) × List (ℕ × Option ℤ)) g =>
      s.colorBlock acc.1 acc.2 s.kChainGids s.kChainMinHeight g)
    (s.blueAntipastOrder, s.redAntipastOrder)
  { s with blueAntipastOrder := r.1, redAntipastOrder := r.2,
           uncoloredUnorderedAntipast := LazySet.empty }

/-- `_get_coloring` (after the lazy antipast coloring). -/
def getColoring (s : GState) : Finset ℕ := (s.updateAntipastColoring).coloringSetRaw

/-- `_update_max_coloring(g)`: when `g` is bluer than the tip, recolor the
past according to `g`, recompute the global k-chain, and recompute the
genesis when it is no longer on the coloring chain. -/
def updateMaxColoring (s : GState) (g : ℕ) : GState :=
  if s.isMaxColoringTip g then
    let s1 := s.updatePastColoringAccordingTo g
    let kc := s1.getKChain g
    let s2 := { s1 with kChainGids := kc.1, kChainMinHeight := kc.2 }
    let genesisInChain : Bool :=
      match s2.genesisGid with
      | some gg => decide (gg ∈ s2.coloringChain)
      | none => false
    if genesisInChain then s2
    else { s2 with genesisGid := s2.getExtremeBlue s2.coloringChain false }
  else s

/-- `sort_blocks` inside `_calculate_topological_order`: the reversely
sorted worklist block (red descending, then blue descending, then the
coloring parent last). -/
def sortBlocksG (_s : GState) (lastBlock : Option ℕ) (laterBlocks : Finset ℕ)
    (toSort : Finset ℕ) (unsorted : Finset ℕ) : List ℕ :=
  let remaining :=
    (toSort \ (match lastBlock with | some l => {l} | none => ∅)) ∩ unsorted
  let blueSet := remaining ∩ laterBlocks
  let blueList := (sortAsc blueSet).reverse
  let redList := (sortAsc (remaining \ blueSet)).reverse
  redList ++ blueList ++ (match lastBlock with | some l => [l] | none => [])

/-- The work-list loop of `_calculate_topological_order` (`to_order` is a
stack popped from the end; `ordered` is an `OrderedSet` appended at the
end). -/
def calcTopoAux (s : GState) (coloring unsorted : Finset ℕ) :
    ℕ → List ℕ → List ℕ → List ℕ
  | 0, _, ordered => ordered
  | _ + 1, [], ordered => ordered
  | fuel + 1, toOrder, ordered =>
    match toOrder.getLast? with
    | none => ordered
    | some cur =>
      let rest := toOrder.dropLast
      if cur ∈ ordered then calcTopoAux s coloring unsorted fuel rest ordered
      else
        let curParents := (s.successorsOf cur).toFinset ∩ unsorted
        if curParents ⊆ ordered.toFinset then
          calcTopoAux s coloring unsorted fuel rest (ordered ++ [cur])
        else
          calcTopoAux s coloring unsorted fuel
            (rest ++ [cur] ++
              s.sortBlocksG (s.recOf cur).coloringParent coloring curParents unsorted)
            ordered

/-- `_calculate_topological_order(coloring_parent_gid, leaves, coloring,
unordered)`. -/
def calcTopologicalOrder (s : GState) (cpGid : Option ℕ) (leaves : Finset ℕ)
    (coloring unsorted : Finset ℕ) : List ℕ :=
  calcTopoAux s coloring unsorted s.topoFuel
    (s.sortBlocksG cpGid coloring leaves unsorted) []

/-- `_update_topological_order_in_dicts(blue_dict, red_dict, leaves,
coloring_parent_gid)`: order the blocks of the two dicts and write local
indices starting from the coloring parent's self order index.  Note the
faithful quirk: an ordered block missing from the blue dict is *assigned
into* the red dict (`red_dict[cur_gid] = new_lid` creates the entry), which
is how each block's coloring parent ends up in its red diff-past dict. -/
def updateTopoInDicts (s : GState) (blueDict redDict : List (ℕ × Option ℤ))
    (leaves : Finset ℕ) (cpGid : Option ℕ) :
    List (ℕ × Option ℤ) × List (ℕ × Option ℤ) :=
  let startingIndex : ℤ :=
    match cpGid with
    | some cp =>
      match (s.recOf cp).selfOrderIndex with
      | some i => i
      | none => 0
    | none => 0
  let order := s.calcTopologicalOrder cpGid leaves (keysOf blueDict)
    (keysOf blueDict ∪ keysOf redDict)
  order.enum.foldl
    (fun (acc : List (ℕ × Option ℤ) × List (ℕ × Option ℤ)) p =>
      let lid : ℤ := (p.1 : ℤ) + startingIndex
      if memDict acc.1 p.2 then (setAssoc acc.1 p.2 (some lid), acc.2)
      else (acc.1, setAssoc acc.2 p.2 (some lid)))
    (blueDict, redDict)

/-- `_update_self_order_index(g)`. -/
def updateSelfOrderIndex (s : GState) (g : ℕ) : GState :=
  let r := s.recOf g
  let base : ℤ := (r.blueDiffPast.length : ℤ) + (r.redDiffPast.length : ℤ)
  let soi : ℤ :=
    match r.coloringParent with
    | some cp =>
      match (s.recOf cp).selfOrderIndex with
      | some i => base + i
      | none => base
    | none => base
  s.setRec g { r with selfOrderIndex := some soi }

/-- `GreedyPHANTOM._update_topological_order_incrementally(g)`: order `g`'s
diff-past dicts (leaves = `g`'s parents) and then set `g`'s self order
index. -/
def updateTopologicalOrderOfBlock (s : GState) (g : ℕ) : GState :=
  let r := s.recOf g
  let d := s.updateTopoInDicts r.blueDiffPast r.redDiffPast r.parents.toFinset
    r.coloringParent
  let s1 := s.setRec g { r with blueDiffPast := d.1, redDiffPast := d.2 }
  s1.updateSelfOrderIndex g

/-- `GreedyPHANTOM.add` = `PHANTOM.add` (graph insertion, edges, leaves)
followed by the greedy `_update_coloring_incrementally` and
`_update_topological_order_incrementally`.  `_get_bluest` raises `KeyError`
when some declared parent has no node attributes (a parent never added),
which the embedding surfaces as `Except.error`, discarding the partially
mutated graph (the Python exception propagates out of `add`). -/
def gAddBlock (s : GState) (b : Block) : Except String GState := do
  let sortedParents := sortAsc b.parents
  let nodes1 := if b.gid ∈ s.nodes then s.nodes else s.nodes ++ [b.gid]
  let s0 : GState :=
    { s with nodes := nodes1,
             recs := setAssoc s.recs b.gid
               { (default : GNode) with parents := sortedParents },
             leaves := insert b.gid (s.leaves \ b.parents) }
  if sortedParents.any (fun p => (s.getRec p).isNone) then
    throw "KeyError: a declared parent was never added"
  let cp := s0.getBluest b.parents
  let h : ℕ :=
    match cp with
    | some _ => (sortedParents.map (fun p => (s0.recOf p).height)).foldl max 0 + 1
    | none => 0
  let bn : ℕ :=
    match cp with
    | some c => (s0.recOf c).blueNumber
    | none => 0
  let s1 := s0.setRec b.gid
    { parents := sortedParents, selfOrderIndex := none, coloringParent := cp,
      blueDiffPast := [], redDiffPast := [], height := h, blueNumber := bn }
  let s2 := { s1 with uncoloredUnorderedAntipast :=
    s1.uncoloredUnorderedAntipast.addElem b.gid }
  let s3 := s2.updateDiffColoringOfBlock b.gid
  let s4 := s3.updateMaxColoring b.gid
  pure (s4.updateTopologicalOrderOfBlock b.gid)

/-- Insert a list of blocks in order into a fresh `GreedyPHANTOM(k)`. -/
def gAddAll (k : ℤ) (blocks : List Block) : Except String GState :=
  blocks.foldlM gAddBlock (ginit k)

/-- `global_id in self`. -/
def containsGid (s : GState) (g : ℕ) : Bool := g ∈ s.nodes

/-- `GreedyPHANTOM._get_local_id`, which lazily colors and orders the
antipast when the id has no index yet or uncolored blocks are pending; the
returned value `none` is the `float('inf')` fallback.  Returns the updated
state alongside the value (queries mutate the instance). -/
def getLocalIdSt (s : GState) (g : ℕ) : GState × Option ℤ :=
  let needs := ((s.mappingGet g).join).isNone ∨ s.uncoloredUnorderedAntipast.nonempty
  let s2 :=
    if needs then
      let sA := s.updateAntipastColoring
      let d := sA.updateTopoInDicts sA.blueAntipastOrder sA.redAntipastOrder
        sA.leaves sA.coloringTipGid
      { sA with blueAntipastOrder := d.1, redAntipastOrder := d.2 }
    else s
  (s2, (s2.mappingGet g).join)

/-- `local_id(a) <= local_id(b)` over `float` values with `none = inf`
(`inf <= inf` is true). -/
def leFloat : Option ℤ → Option ℤ → Bool
  | _, none => true
  | none, some _ => false
  | some x, some y => decide (x ≤ y)

/-- `PHANTOM.is_a_before_b` as inherited by `GreedyPHANTOM` (with the
greedy `_get_local_id`): `None` when neither id is present, the present
one earlier otherwise, else local-id comparison. -/
def gIsABeforeB (s : GState) (a b : ℕ) : Option Bool :=
  if ¬ s.containsGid a ∧ ¬ s.containsGid b then none
  else if s.containsGid a ∧ ¬ s.containsGid b then some true
  else if ¬ s.containsGid a ∧ s.containsGid b then some false
  else
    let r1 := s.getLocalIdSt a
    let r2 := r1.1.getLocalIdSt b
    some (leFloat r1.2 r2.2)

/-- The chain-walk loop of `get_depth` (depth starts at 1). -/
def getDepthAux (s : GState) (g : ℕ) : List ℕ → ℤ → WithBot ℤ
  | [], _ => (0 : ℤ)
  | c :: rest, depth =>
    if memDict (s.recOf c).redDiffPast g then (0 : ℤ)
    else if memDict (s.recOf c).blueDiffPast g then (depth : ℤ)
    else getDepthAux s g rest (depth + (s.recOf c).blueDiffPast.length)

/-- `GreedyPHANTOM.get_depth`: `-inf` (modelled `⊥`) for an absent id; `0`
for an id in `self._antipast` (the frozen empty set, so this test never
fires); otherwise walk the coloring chain from the tip with an accumulator
starting at 1, returning 0 on a red hit, the accumulator on a blue hit,
and 0 when the chain is exhausted. -/
def getDepth (s : GState) (g : ℕ) : WithBot ℤ :=
  if ¬ s.containsGid g then ⊥
  else if g ∈ s.antipastFrozen then (0 : ℤ)
  else getDepthAux s g (s.chainFrom s.coloringTipGid) 1

/-- `get_virtual_block_parents`. -/
def getVirtualBlockParents (s : GState) : Finset ℕ := s.leaves

/-- The past of `g` in the greedy DAG's graph (ids reachable along parent
edges), the notion the spec's anticone is defined from. -/
def past (s : GState) (g : ℕ) : Finset ℕ :=
  reachAux s.successorsOf s.gfuel (s.successorsOf g) ∅

/-- The future of `g` in the greedy DAG's graph. -/
def future (s : GState) (g : ℕ) : Finset ℕ :=
  reachAux s.predecessorsOf s.gfuel (s.predecessorsOf g) ∅

/-- The anticone of `g` in the greedy DAG's graph: every id neither `g`
itself nor in its past nor in its future. -/
def anticone (s : GState) (g : ℕ) : Finset ℕ :=
  s.nodes.toFinset \ (insert g (s.past g ∪ s.future g))

end GState

/-- The blocks of an ascending single chain: block `i` has parent
`{i - 1}` (the genesis `0` has none). -/
def chainBlocks (n : ℕ) : List Block :=
  (List.range n).map (fun i => ⟨i, if i = 0 then ∅ else {i - 1}⟩)


/-! ## Blockchain (`phantom/blockchain/blockchain.py`)

The longest-chain baseline.  Chain lengths start at 1 for the genesis. -/

/-- The `Blockchain` instance state. -/
structure BCState where
  nodes : List ℕ
  parentsOf : List (ℕ × List ℕ)
  chainLength : List (ℕ × ℕ)
  leaves : Finset ℕ
  longestChainTipGid : Option ℕ
  longestChain : Finset ℕ
deriving DecidableEq

namespace BCState

/-- `Blockchain()`. -/
def binit : BCState := ⟨[], [], [], ∅, none, ∅⟩

/-- `_CHAIN_LENGTH_KEY` read (every id this is applied to in our runs has
an entry; the default stands for the attribute a `KeyError` would
signal). -/
def clOf (s : BCState) (g : ℕ) : ℕ := (lookupList s.chainLength g).getD 0

/-- `self._G.successors(g)` — the single chosen parent, if any. -/
def successorsOf (s : BCState) (g : ℕ) : List ℕ := (lookupList s.parentsOf g).getD []

/-- `_get_longest_chain_tip(global_ids)`: Python's `max` with the chain
length as key over the ascending ids — the smallest id among the ids of
maximal chain length; `None` for an empty collection. -/
def getLongestChainTip (s : BCState) (gids : Finset ℕ) : Option ℕ :=
  match sortAsc gids with
  | [] => none
  | x :: xs =>
    some (xs.foldl (fun best y => if s.clOf y > s.clOf best then y else best) x)

/-- `_chain_generator`'s loop body: walk down `counter` steps. -/
def chainGenAux (s : BCState) : ℕ → ℕ → List ℕ
  | _, 0 => []
  | g, n + 1 =>
    g :: (match s.getLongestChainTip (s.successorsOf g).toFinset with
          | some p => chainGenAux s p n
          | none => [])

/-- `_chain_generator(tip_gid)`: the chain from the tip down, of length
`chain_length(tip)`; empty for `None`. -/
def chainGen (s : BCState) (tip : Option ℕ) : List ℕ :=
  match tip with
  | none => []
  | some g => s.chainGenAux g (s.clOf g)

/-- `_update_longest_chain_incrementally(global_id, parent)`. -/
def updateLongestChainIncrementally (s : BCState) (g : ℕ) (parent : Option ℕ) :
    BCState :=
  let cl := s.clOf g
  let cond : Bool :=
    match s.longestChainTipGid with
    | none => true
    | some t => decide (cl > s.clOf t ∨ (cl = s.clOf t ∧ g < t))
  if cond then
    let prevTip := s.longestChainTipGid
    let s1 := { s with longestChainTipGid := some g }
    if parent = prevTip then { s1 with longestChain := insert g s1.longestChain }
    else
      let w := GState.splitAtChain s1.longestChain (s1.chainGen (some g))
      let removed := GState.untilElem w.2 (s1.chainGen prevTip)
      { s1 with longestChain :=
          (removed.foldl (fun c x => c.erase x) s1.longestChain) ∪ w.1.toFinset }
  else s

/-- `Blockchain.add(block)`: pick the parent with the longest chain (ties:
smaller id), set the chain length, insert the node and edge, update the
leaves and the longest chain. -/
def addBlock (s : BCState) (b : Block) : BCState :=
  let parent := s.getLongestChainTip b.parents
  let cl := 1 + (match parent with | some p => s.clOf p | none => 0)
  let nodes1 := if b.gid ∈ s.nodes then s.nodes else s.nodes ++ [b.gid]
  let leaves1 :=
    match parent with
    | some p => if p ∈ s.leaves then s.leaves.erase p else s.leaves
    | none => s.leaves
  let s1 : BCState :=
    { s with nodes := nodes1,
             chainLength := setAssoc s.chainLength b.gid cl,
             parentsOf := setAssoc s.parentsOf b.gid
               (match parent with | some p => [p] | none => []),
             leaves := insert b.gid leaves1 }
  s1.updateLongestChainIncrementally b.gid parent

/-- Insert a list of blocks in order into a fresh `Blockchain()`. -/
def addAll (blocks : List Block) : BCState := blocks.foldl addBlock binit

/-- `global_id in self`. -/
def containsGid (s : BCState) (g : ℕ) : Bool := g ∈ s.nodes

/-- `Blockchain.is_a_before_b`: presence is judged by membership in the
*longest chain*, not in the DAG: `None` when neither id is on the longest
chain, else the off-chain one is later, else chain-length comparison. -/
def is_a_before_b (s : BCState) (a b : ℕ) : Option Bool :=
  if a ∉ s.longestChain ∧ b ∉ s.longestChain then none
  else if a ∉ s.longestChain ∧ b ∈ s.longestChain then some false
  else if a ∈ s.longestChain ∧ b ∉ s.longestChain then some true
  else some (decide (s.clOf a ≤ s.clOf b))

/-- `Blockchain.get_depth`. -/
def get_depth (s : BCState) (g : ℕ) : WithBot ℤ :=
  if ¬ g ∈ s.nodes then ⊥
  else if g ∉ s.longestChain then (0 : ℤ)
  else (((match s.longestChainTipGid with | some t => s.clOf t | none => 0) : ℤ) -
    (s.clOf g : ℤ))

/-- `get_virtual_block_parents`. -/
def getVirtualBlockParents (s : BCState) : Finset ℕ :=
  match s.longestChainTipGid with
  | none => ∅
  | some t => {t}

end BCState

/-- A small concrete GreedyPHANTOM state (a genesis block `0` and a child
`1`), used to evaluate theorems about `gAddBlock` on concrete inputs. -/
def gDemoState : GState :=
  match GState.gAddAll 4 [⟨0, ∅⟩, ⟨1, {0}⟩] with
  | Except.ok s => s
  | Except.error _ => GState.ginit 4

/-- `gDemoState` after adding a block `2` with parents `{0, 1}`. -/
def gDemoState2 : GState :=
  match gDemoState.gAddBlock ⟨2, {0, 1}⟩ with
  | Except.ok s => s
  | Except.error _ => GState.ginit 4

/-! ### CompetingChainGreedyPHANTOM (`competing_chain_greedy_phantom.py`)

The malicious variant keeps the combined DAG (`main`, the inherited
`GreedyPHANTOM` state), a copy of the honest sub-DAG, the attack metadata,
and a queue of malicious blocks not yet added to the honest sub-DAG.
Where the source would raise a `KeyError` by indexing a node dictionary
with `None` (only reachable by calling the helpers on states the source
never calls them on), the embedding reads the id with a default of `0`. -/
structure CCState where
  main : GState
  honest : GState
  bluestHonestBlockGid : Option ℕ
  competingChainTipGid : Option ℕ
  currentlyAttackedBlockGid : Option ℕ
  firstParallelBlockGid : Option ℕ
  competingChainTipAntipast : Finset ℕ
  virtualCompetingChainBlockParents : Finset ℕ
  confirmationDepth : ℤ
  maximalDepthDifference : ℤ
  maliciousQueue : List ℕ

namespace CCState

/-- `CompetingChainGreedyPHANTOM.__init__`. -/
def ccInit (k cd mdd : ℤ) : CCState :=
  { main := GState.ginit k, honest := GState.ginit k,
    bluestHonestBlockGid := none, competingChainTipGid := none,
    currentlyAttackedBlockGid := none, firstParallelBlockGid := none,
    competingChainTipAntipast := ∅, virtualCompetingChainBlockParents := ∅,
    confirmationDepth := cd, maximalDepthDifference := mdd,
    maliciousQueue := [] }

/-- `did_attack_fail`. -/
def ccDidAttackFail (s : CCState) : Bool :=
  s.firstParallelBlockGid.isNone || s.currentlyAttackedBlockGid.isNone

/-- The inner ancestor-removal BFS of `_get_competing_chain_tip_parents`
(lines 69-77): walk the parents of a bluer block, dropping every ancestor
inside the tip's antipast from the accumulated virtual parents. -/
def ccAncestorAux (main : GState) (tipAntipast : Finset ℕ) :
    ℕ → List ℕ → Finset ℕ → Finset ℕ → Finset ℕ × Finset ℕ
  | 0, _, visited, parents => (visited, parents)
  | _ + 1, [], visited, parents => (visited, parents)
  | fuel + 1, a :: queue, visited, parents =>
    if a ∉ tipAntipast then
      ccAncestorAux main tipAntipast fuel queue visited parents
    else
      ccAncestorAux main tipAntipast fuel (queue ++ main.successorsOf a)
        (insert a visited) (parents.erase a)

/-- The main BFS of `_get_competing_chain_tip_parents` (lines 59-79): from
the virtual block parents of the combined DAG, walk down (`predecessors`
are the children) through the tip's antipast; a block the selfish tip is
bluer than becomes a virtual parent and its ancestors are removed. -/
def ccTipParentsAux (main : GState) (tipGid : ℕ) (tipAntipast : Finset ℕ) :
    ℕ → List ℕ → Finset ℕ → Finset ℕ → Finset ℕ
  | 0, _, _, parents => parents
  | _ + 1, [], _, parents => parents
  | fuel + 1, gid :: queue, visited, parents =>
    if gid ∈ visited ∨ gid ∉ tipAntipast then
      ccTipParentsAux main tipGid tipAntipast fuel queue visited parents
    else if main.isABluerThanB tipGid gid then
      let r := ccAncestorAux main tipAntipast fuel (main.successorsOf gid)
        (insert gid visited) (insert gid parents)
      ccTipParentsAux main tipGid tipAntipast fuel queue r.1 r.2
    else
      ccTipParentsAux main tipGid tipAntipast fuel
        (queue ++ main.predecessorsOf gid) (insert gid visited) parents

/-- `_get_competing_chain_tip_parents(tip_global_id, tip_antipast,
initial_parents)`. -/
def ccGetCompetingChainTipParents (main : GState) (tipGid : ℕ)
    (tipAntipast initialParents : Finset ℕ) : Finset ℕ :=
  ccTipParentsAux main tipGid tipAntipast main.gfuel
    (sortAsc main.getVirtualBlockParents) initialParents initialParents

/-- `_add_malicious_blocks_to_honest_dag`: pop the queued malicious blocks
in order and add each (looked up in the combined DAG) to the honest
sub-DAG.  A `KeyError` raised by the greedy add is surfaced as an error. -/
def ccDrain (s : CCState) : Except String CCState :=
  match s.maliciousQueue.foldlM
      (fun (h : GState) gid =>
        h.gAddBlock ⟨gid, (s.main.recOf gid).parents.toFinset⟩) s.honest with
  | Except.ok h => Except.ok { s with honest := h, maliciousQueue := [] }
  | Except.error e => Except.error e

/-- `_stop_attack`. -/
def ccStopAttack (s : CCState) : Except String CCState :=
  match s.ccDrain with
  | Except.ok s1 =>
    Except.ok { s1 with competingChainTipGid := none,
                        firstParallelBlockGid := none }
  | Except.error e => Except.error e

/-- `did_attack_succeed`: `False` when the attack already failed; otherwise
the conjunction of the two depth checks with the (possibly `None`-valued)
`is_a_before_b`, truthy exactly when all three hold. -/
def ccDidAttackSucceed (s : CCState) : Bool :=
  match s.firstParallelBlockGid, s.currentlyAttackedBlockGid with
  | some fpb, some cab =>
    decide ((s.confirmationDepth : WithBot ℤ) ≤ s.main.getDepth fpb) &&
    decide ((s.confirmationDepth : WithBot ℤ) ≤ s.honest.getDepth cab) &&
    decide (s.main.gIsABeforeB fpb cab = some true)
  | _, _ => false

/-- `_is_attack_viable`: always viable when no attack is running; otherwise
the blue-number gap between the combined DAG's coloring tip and the
competing chain tip must not exceed `maximal_depth_difference`. -/
def ccIsAttackViable (s : CCState) : Bool :=
  if s.ccDidAttackFail then true
  else
    decide (((s.main.recOf (s.main.coloringTipGid.getD 0)).blueNumber : ℤ) -
      ((s.main.recOf (s.competingChainTipGid.getD 0)).blueNumber : ℤ) ≤
      s.maximalDepthDifference)

/-- `_restart_attack`: stop the current attack, then target the honest
DAG's coloring tip, taking the frozen honest antipast as the competing
tip's antipast. -/
def ccRestartAttack (s : CCState) : Except String CCState :=
  match s.ccStopAttack with
  | Except.ok s1 =>
    let tipAntipast : Finset ℕ := s1.honest.antipastFrozen
    let cab := s1.honest.coloringTipGid
    let cabGid := cab.getD 0
    Except.ok { s1 with
      competingChainTipAntipast := tipAntipast,
      currentlyAttackedBlockGid := cab,
      virtualCompetingChainBlockParents :=
        ccGetCompetingChainTipParents s1.main cabGid tipAntipast
          (s1.main.recOf cabGid).parents.toFinset }
  | Except.error e => Except.error e

/-- `get_virtual_block_parents(is_malicious)`: honest queries (or a DAG
with at most one block) see the combined DAG's leaves; a malicious query
restarts a failed attack first and returns the virtual competing chain
block parents (returning the possibly-restarted state as well). -/
def ccGetVirtualBlockParents (s : CCState) (isMalicious : Bool) :
    Except String (CCState × Finset ℕ) :=
  if ¬ isMalicious ∨ s.main.nodes.length ≤ 1 then
    Except.ok (s, s.main.getVirtualBlockParents)
  else if s.ccDidAttackFail then
    match s.ccRestartAttack with
    | Except.ok s1 => Except.ok (s1, s1.virtualCompetingChainBlockParents)
    | Except.error e => Except.error e
  else Except.ok (s, s.virtualCompetingChainBlockParents)

/-- `add` up to line 122: the inherited greedy add on the combined DAG,
then the malicious bookkeeping (queue, first parallel block, new competing
tip and its antipast and virtual parents) or the honest bookkeeping
(drain the queue if no attack is running, add to the honest sub-DAG). -/
def ccAddPre (s : CCState) (b : Block) (isMalicious : Bool) :
    Except String CCState :=
  match s.main.gAddBlock b with
  | Except.error e => Except.error e
  | Except.ok main1 =>
    let s1 := { s with main := main1 }
    let gid := b.gid
    if isMalicious then
      let s2a := { s1 with maliciousQueue := s1.maliciousQueue ++ [gid] }
      let s2b :=
        if s2a.ccDidAttackFail then
          { s2a with firstParallelBlockGid := some gid }
        else s2a
      let s2c := { s2b with competingChainTipGid := some gid }
      let tipAp := (s2c.competingChainTipAntipast \
        keysOf (main1.recOf gid).blueDiffPast) \
        keysOf (main1.recOf gid).redDiffPast
      let s2d := { s2c with competingChainTipAntipast := tipAp }
      Except.ok { s2d with virtualCompetingChainBlockParents :=
        ccGetCompetingChainTipParents main1 gid tipAp b.parents }
    else
      match (if s1.ccDidAttackFail then s1.ccDrain else Except.ok s1) with
      | Except.error e => Except.error e
      | Except.ok s2a =>
        match s2a.honest.gAddBlock b with
        | Except.error e => Except.error e
        | Except.ok h => Except.ok { s2a with honest := h }

/-- `add` lines 127-135: while an attack runs, put the new block in the
competing tip's antipast and either refresh the virtual parents (the new
block keeps the competing tip bluest) or stop the attack when it is no
longer viable. -/
def ccAddFinal (t2 : CCState) (gid : ℕ) (bp : Finset ℕ) :
    Except String CCState :=
  if t2.ccDidAttackFail then Except.ok t2
  else
    let s4a := { t2 with
      competingChainTipAntipast := insert gid t2.competingChainTipAntipast }
    if some gid = s4a.competingChainTipGid ∨
        s4a.main.isABluerThanB (s4a.competingChainTipGid.getD 0) gid then
      Except.ok { s4a with
        virtualCompetingChainBlockParents := insert gid (s4a.virtualCompetingChainBlockParents \ bp) }
    else if s4a.ccIsAttackViable then Except.ok s4a
    else s4a.ccStopAttack

/-- `add` lines 124-135: drain the queue on success, then the viability
bookkeeping of `ccAddFinal`. -/
def ccAddPost (t : CCState) (gid : ℕ) (bp : Finset ℕ) :
    Except String CCState :=
  match (if t.ccDidAttackSucceed then t.ccDrain else Except.ok t) with
  | Except.error e => Except.error e
  | Except.ok t2 => ccAddFinal t2 gid bp

/-- `CompetingChainGreedyPHANTOM.add(block, is_malicious)`. -/
def ccAdd (s : CCState) (b : Block) (isMalicious : Bool) :
    Except String CCState :=
  match s.ccAddPre b isMalicious with
  | Except.ok t => t.ccAddPost b.gid b.parents
  | Except.error e => Except.error e

end CCState

/-- Take the state of a successful competing-chain step (demo traces
only use successful steps). -/
def ccExtract (r : Except String CCState) : CCState :=
  match r with
  | Except.ok s => s
  | Except.error _ => CCState.ccInit 0 0 0

/-- A concrete attack trace with `k = 4`, confirmation depth `1` and
maximal depth difference `-1`: genesis and an honest block, a malicious
query (which restarts the attack), one malicious block, and then the
`ccAddPre` part of a further honest add.  With the depth difference set
to `-1` the attack is never viable, so that honest add stops it. -/
def ccSt1 : CCState := ccExtract ((CCState.ccInit 4 1 (-1)).ccAdd ⟨0, ∅⟩ false)

/-- Second step of the demo trace: an honest block `1`. -/
def ccSt2 : CCState := ccExtract (ccSt1.ccAdd ⟨1, {0}⟩ false)

/-- Third step: a malicious virtual-parents query restarting the attack. -/
def ccSt3 : CCState :=
  ccExtract ((ccSt2.ccGetVirtualBlockParents true).map Prod.fst)

/-- Fourth step: the malicious block `4` on top of the genesis. -/
def ccSt4 : CCState := ccExtract (ccSt3.ccAdd ⟨4, {0}⟩ true)

/-- The mid-add state of the final honest add of block `2`. -/
def ccStT : CCState := ccExtract (ccSt4.ccAddPre ⟨2, {0}⟩ false)

/-- The final state of the demo trace: the honest add of block `2`
completes and stops the attack. -/
def ccStT2 : CCState := ccExtract (ccSt4.ccAdd ⟨2, {0}⟩ false)

/-! ## Theorems -/

theorem mem_sortAsc {s : Finset ℕ} {x : ℕ} : x ∈ sortAsc s ↔ x ∈ s := by
  unfold sortAsc
  cases hm : s.max with
  | bot => simp [Finset.max_eq_bot.mp hm]
  | coe m =>
    simp only [List.mem_filter, List.mem_range, decide_eq_true_eq]
    constructor
    · exact fun h => h.2
    · intro hx
      refine ⟨?_, hx⟩
      have hle := Finset.le_max hx
      rw [hm] at hle
      exact Nat.lt_succ_of_le (by exact_mod_cast hle)

theorem sortAsc_nodup (s : Finset ℕ) : (sortAsc s).Nodup := by
  unfold sortAsc
  cases s.max with
  | bot => exact List.nodup_nil
  | coe m => exact (List.nodup_range _).filter _

theorem sortAsc_toFinset (s : Finset ℕ) : (sortAsc s).toFinset = s := by
  ext x
  simp [List.mem_toFinset, mem_sortAsc]

namespace LazySet

theorem peelEval_reverse (pos : Finset ℕ) (l : List (ℕ × Finset ℕ)) :
    peelEval pos l.reverse =
      l.foldl (fun acc p => if p.1 ∈ pos then acc ∪ p.2 else acc \ p.2) ∅ := by
  induction l using List.reverseRecOn with
  | nil => rfl
  | append_singleton l a ih =>
    simp [List.foldl_append, peelEval, ← ih]

theorem scanB_eq_mem_peel (pos : Finset ℕ) (x : ℕ) (l : List (ℕ × Finset ℕ)) :
    scanB pos x l = decide (x ∈ peelEval pos l) := by
  induction l with
  | nil => simp [scanB, peelEval]
  | cons a rest ih =>
    obtain ⟨i, s⟩ := a
    by_cases hx : x ∈ s
    · by_cases hi : i ∈ pos <;> simp [scanB, peelEval, hx, hi]
    · by_cases hi : i ∈ pos <;> simp [scanB, peelEval, hx, hi, ih]

theorem contains_eq_scanB (L : LazySet) (x : ℕ) :
    L.contains x = scanB L.positiveIndices x L.sets.enum.reverse := by
  unfold contains
  induction L.sets.enum.reverse with
  | nil => rfl
  | cons a rest ih =>
    obtain ⟨i, s⟩ := a
    by_cases hx : x ∈ s <;> simp [List.find?, scanB, hx, ih]

theorem contains_iff_mem_refEval (L : LazySet) (x : ℕ) :
    L.contains x = true ↔ x ∈ L.refEval := by
  rw [contains_eq_scanB, scanB_eq_mem_peel, peelEval_reverse]
  simp [refEval]

theorem iterAux_toFinset (pos : Finset ℕ) (l : List (ℕ × Finset ℕ)) (dny : Finset ℕ) :
    (iterAux pos l dny).toFinset = peelEval pos l \ dny := by
  induction l generalizing dny with
  | nil => simp [iterAux, peelEval]
  | cons a rest ih =>
    obtain ⟨i, s⟩ := a
    by_cases hi : i ∈ pos
    · simp only [iterAux, hi, if_pos, peelEval, List.toFinset_append, ih]
      ext y
      simp only [Finset.mem_union, Finset.mem_sdiff, List.mem_toFinset,
        mem_sortAsc, Finset.mem_union]
      tauto
    · simp only [iterAux, hi, if_neg, peelEval, ih, not_false_iff]
      ext y
      simp only [Finset.mem_sdiff, Finset.mem_union]
      tauto

theorem iterAux_nodup (pos : Finset ℕ) (l : List (ℕ × Finset ℕ)) (dny : Finset ℕ) :
    (iterAux pos l dny).Nodup := by
  induction l generalizing dny with
  | nil => exact List.nodup_nil
  | cons a rest ih =>
    obtain ⟨i, s⟩ := a
    by_cases hi : i ∈ pos
    · simp only [iterAux, hi, if_pos]
      refine List.Nodup.append (sortAsc_nodup _) (ih _) ?_
      intro y hy hy'
      have h1 : y ∈ s \ dny := mem_sortAsc.mp hy
      have h2 : y ∈ peelEval pos rest \ (dny ∪ s) := by
        rw [← iterAux_toFinset pos rest (dny ∪ s)]
        exact List.mem_toFinset.mpr hy'
      rw [Finset.mem_sdiff, Finset.mem_union] at h2
      exact h2.2 (Or.inr (Finset.mem_sdiff.mp h1).1)
    · simpa only [iterAux, hi, if_neg, not_false_iff] using ih _

theorem iterList_toFinset (L : LazySet) : L.iterList.toFinset = L.refEval := by
  rw [iterList, iterAux_toFinset, peelEval_reverse]
  simp [refEval]

theorem iterList_nodup (L : LazySet) : L.iterList.Nodup := iterAux_nodup _ _ _

theorem find?_split {α : Type} (p : α → Bool) :
    ∀ (l : List α) (a : α), l.find? p = some a →
      ∃ pre post, l = pre ++ a :: post ∧ (∀ b ∈ pre, p b = false) ∧ p a = true := by
  intro l
  induction l with
  | nil => intro a h; simp [List.find?] at h
  | cons x rest ih =>
    intro a h
    by_cases hx : p x
    · rw [List.find?_cons_of_pos _ hx] at h
      obtain rfl : x = a := by injection h
      exact ⟨[], rest, rfl, by simp, hx⟩
    · rw [List.find?_cons_of_neg _ (by simpa using hx)] at h
      obtain ⟨pre, post, rfl, hpre, ha⟩ := ih a h
      exact ⟨x :: pre, post, rfl, by
        intro b hb
        rcases List.mem_cons.mp hb with rfl | hb
        · simpa using hx
        · exact hpre b hb, ha⟩

theorem foldl_neg_layers (pos : Finset ℕ) (pre : List (ℕ × Finset ℕ))
    (h : ∀ b ∈ pre, (b.1 ∈ pos) = False) :
    (pre.foldl (fun acc p => if p.1 ∈ pos then acc ∪ p.2 else acc \ p.2) ∅) = ∅ := by
  induction pre with
  | nil => rfl
  | cons a rest ih =>
    have ha : ¬ a.1 ∈ pos := by simpa using h a (List.mem_cons_self a rest)
    simp only [List.foldl_cons, ha, if_neg, not_false_iff, Finset.empty_sdiff]
    exact ih (fun b hb => h b (List.mem_cons_of_mem a hb))

theorem enum_fst_of_split (sets : List (Finset ℕ)) (pre post : List (ℕ × Finset ℕ))
    (i : ℕ) (base : Finset ℕ) (h : sets.enum = pre ++ (i, base) :: post) :
    i = pre.length := by
  have h1 : sets.enum.get? pre.length = some (i, base) := by
    rw [h, List.get?_append_right (le_refl _)]
    simp
  rw [List.get?_enum] at h1
  cases h2 : sets.get? pre.length with
  | none => rw [h2] at h1; simp at h1
  | some s => rw [h2] at h1; simp at h1; exact h1.1.symm

theorem flatten_to_set_fst (L : LazySet) (m : Bool) :
    (L.flatten_to_set m).1 = L.refEval := by
  unfold flatten_to_set
  cases hf : L.sets.enum.find? (fun p => decide (p.1 ∈ L.positiveIndices)) with
  | none =>
    have hall := List.find?_eq_none.mp hf
    simp only [refEval]
    rw [eq_comm]
    exact foldl_neg_layers _ _ (fun b hb => by simpa using hall b hb)
  | some a =>
    obtain ⟨i, base⟩ := a
    obtain ⟨pre, post, hsplit, hpre, ha⟩ := find?_split _ _ _ hf
    have hi : i = pre.length := enum_fst_of_split _ _ _ _ _ hsplit
    subst hi
    have hbase : pre.length ∈ L.positiveIndices := by simpa using ha
    simp only [refEval, hsplit]
    have hdrop : ((pre ++ (pre.length, base) :: post).drop (pre.length + 1)) = post := by
      have h2 : pre ++ (pre.length, base) :: post = (pre ++ [(pre.length, base)]) ++ post := by
        simp
      rw [h2]
      have hlen : (pre ++ [(pre.length, base)]).length = pre.length + 1 := by simp
      rw [← hlen, List.drop_left]
    rw [hdrop, List.foldl_append]
    rw [foldl_neg_layers _ _ (fun b hb => by simpa using hpre b hb)]
    simp [hbase]

theorem flatten_snd (L : LazySet) (m : Bool) :
    (L.hasPositiveLayer = true → (L.flatten m) = (⟨[], ∅⟩ : LazySet).lazy_update L.refEval) ∧
    (L.hasPositiveLayer = false → L.flatten m = L) := by
  constructor
  · intro hpos
    have hfst := flatten_to_set_fst L m
    unfold flatten flatten_to_set
    unfold hasPositiveLayer at hpos
    cases hf : L.sets.enum.find? (fun p => decide (p.1 ∈ L.positiveIndices)) with
    | none => rw [hf] at hpos; simp at hpos
    | some a =>
      obtain ⟨i, base⟩ := a
      have : (L.flatten_to_set m).1 =
          ((L.sets.enum.drop (i + 1)).foldl
            (fun acc p => if p.1 ∈ L.positiveIndices then acc ∪ p.2 else acc \ p.2) base) := by
        unfold flatten_to_set
        rw [hf]
      simp only [clear]
      rw [← this, hfst]
  · intro hneg
    unfold flatten flatten_to_set
    unfold hasPositiveLayer at hneg
    cases hf : L.sets.enum.find? (fun p => decide (p.1 ∈ L.positiveIndices)) with
    | none => rfl
    | some a => rw [hf] at hneg; simp at hneg


/-- **C5.** For every LazySet built by any sequence of `lazy_update` and
`lazy_difference_update` calls on underlying sets, flattening yields a
single set equal to the reference evaluation of the layers applied in layer
order (union for each positive layer, difference for each negative layer —
for a constructor-shaped build `LazySet(base, negs, poses)` this is exactly
`base.difference(*negs).union(*poses)`), and, before flattening, membership
(`__contains__`) and iteration agree with that reference set, with each
present element yielded exactly once. -/
theorem C5_lazyset_roundtrip (L : LazySet) (_hL : L.Built) (m : Bool) :
    (L.flatten_to_set m).1 = L.refEval ∧
    (∀ x, L.contains x = true ↔ x ∈ L.refEval) ∧
    L.iterList.toFinset = L.refEval ∧ L.iterList.Nodup :=
  ⟨flatten_to_set_fst L m, fun x => contains_iff_mem_refEval L x,
    iterList_toFinset L, iterList_nodup L⟩

/-- Witness for `C5_lazyset_roundtrip`: a concrete build
`LazySet().lazy_update({1,2}).lazy_difference_update({2}).lazy_update({5})`. -/
theorem C5_lazyset_roundtrip_witness :
    ((((LazySet.empty.lazy_update {1, 2}).lazy_difference_update {2}).lazy_update
        {5}).flatten_to_set true).1 =
      (((LazySet.empty.lazy_update {1, 2}).lazy_difference_update {2}).lazy_update
        {5}).refEval :=
  (C5_lazyset_roundtrip _
    (Built.upd _ (Built.diff _ (Built.upd _ Built.empty))) true).1

/-- **C6 counterexample.** The claim says that immediately after `flatten`
the layer list consists of exactly one positive layer and no negative
layers.  For the LazySet built by `lazy_update({1})` followed by
`lazy_difference_update({1})`, the flattened set is empty, the final
`lazy_update` skips it, and the layer list ends up with no layers at all —
in particular not with exactly one positive layer. -/
theorem C6_counterexample :
    ¬ ((((LazySet.empty.lazy_update {1}).lazy_difference_update {1}).flatten
          true).sets.length = 1 ∧
       (((LazySet.empty.lazy_update {1}).lazy_difference_update {1}).flatten
          true).positiveIndices = {0}) := by decide

/-- **C6 (amended).** Immediately after calling `flatten` (with either value
of `modify`): if the lazy set had at least one positive layer, its layer
list collapses to exactly one positive layer holding the flattened set when
that set is non-empty, and to no layers at all when that set is empty; if
the lazy set had no positive layer, `flatten` returns early and the layers
are left unchanged. -/
theorem C6_flatten_layers (L : LazySet) (m : Bool) :
    (L.hasPositiveLayer = true → L.refEval ≠ ∅ →
      (L.flatten m).sets = [L.refEval] ∧ (L.flatten m).positiveIndices = {0}) ∧
    (L.hasPositiveLayer = true → L.refEval = ∅ →
      (L.flatten m).sets = [] ∧ (L.flatten m).positiveIndices = ∅) ∧
    (L.hasPositiveLayer = false → L.flatten m = L) := by
  obtain ⟨h1, h2⟩ := flatten_snd L m
  refine ⟨?_, ?_, h2⟩
  · intro hp hne
    rw [h1 hp]
    simp [lazy_update, hne]
  · intro hp he
    rw [h1 hp]
    simp [lazy_update, he]

/-- Witness for `C6_flatten_layers`: flattening
`LazySet().lazy_update({1,2})` leaves one positive layer. -/
theorem C6_flatten_layers_witness :
    ((LazySet.empty.lazy_update {1, 2}).flatten false).sets =
      [(LazySet.empty.lazy_update {1, 2}).refEval] ∧
    ((LazySet.empty.lazy_update {1, 2}).flatten false).positiveIndices = {0} :=
  (C6_flatten_layers _ false).1 (by decide) (by decide)

end LazySet





set_option maxRecDepth 40000

/-- The three-block fork used as concrete input by several claims:
genesis `0`, then `1` and `2` both with parent `{0}`, inserted in
ascending order. -/
def forkBlocks : List Block := [⟨0, ∅⟩, ⟨1, {0}⟩, ⟨2, {0}⟩]

/-- **C1 counterexample.**  Inserting the three-block fork with `k = 0`
into both engines: GreedyPHANTOM's blue set is `{0, 1, 2}` (every block —
since `self._antipast` is the frozen empty set, every diff-past stays
empty, the k-chain of the genesis tip reaches height 0, and rule 2 colors
every chain-connected block blue), while BruteForcePHANTOM's blue set is
`{0, 1}` (the first maximum 0-cluster in powerset order).  The sets
differ, refuting the claimed equality. -/
theorem C1_counterexample :
    (GState.gAddAll 0 forkBlocks).toOption.map (fun s => sortAsc s.getColoring) =
        some [0, 1, 2] ∧
    sortAsc (BFState.addAll 0 forkBlocks).coloring = [0, 1] ∧
    ([0, 1, 2] : List ℕ) ≠ [0, 1] := by
  refine ⟨by decide, by decide, by decide⟩

/-- **C1 (amended).**  The blue sets of GreedyPHANTOM and
BruteForcePHANTOM can differ (already on the three-block fork of
`C1_counterexample`); they do agree on single ascending chains: for every
chain of fewer than 8 blocks (block `i` with parent `{i-1}`) and every
`k ∈ {-1, 0, 1, 4}`, inserting the chain into both engines yields the same
set of blue blocks. -/
theorem C1_chain_agreement :
    ∀ n < 8, ∀ k ∈ ([-1, 0, 1, 4] : List ℤ),
      (GState.gAddAll k (chainBlocks n)).toOption.map
          (fun s => sortAsc s.getColoring) =
        some (sortAsc (BFState.addAll k (chainBlocks n)).coloring) := by decide

/-- Witness for `C1_chain_agreement` at the 4-block chain with `k = 1`. -/
theorem C1_chain_agreement_witness :
    (GState.gAddAll 1 (chainBlocks 4)).toOption.map
        (fun s => sortAsc s.getColoring) =
      some (sortAsc (BFState.addAll 1 (chainBlocks 4)).coloring) :=
  C1_chain_agreement 4 (by decide) 1 (by decide)

/-- **C2 counterexample.**  In the GreedyPHANTOM state reached by the
three-block fork with `k = 0`, block `1` is blue under the global coloring
and its anticone contains the blue block `2`, so
`|anticone(1) ∩ coloring| = 1 > 0 = k`, refuting the claimed invariant for
the greedy engine. -/
theorem C2_counterexample :
    (GState.gAddAll 0 forkBlocks).toOption.map (fun s =>
        decide (1 ∈ s.getColoring ∧
          ((s.anticone 1 ∩ s.getColoring).card : ℤ) > s.k)) = some true := by
  decide

theorem combinations_subset {α : Type} :
    ∀ (l : List α) (r : ℕ) (c : List α), c ∈ combinations r l → ∀ x ∈ c, x ∈ l := by
  intro l
  induction l with
  | nil =>
    intro r c hc
    cases r with
    | zero =>
      simp only [combinations, List.mem_singleton] at hc
      subst hc
      simp
    | succ r => simp [combinations] at hc
  | cons a as ih =>
    intro r c hc
    cases r with
    | zero =>
      simp only [combinations, List.mem_singleton] at hc
      subst hc
      simp
    | succ r =>
      simp only [combinations, List.mem_append, List.mem_map] at hc
      rcases hc with ⟨c', hc', rfl⟩ | hc
      · intro x hx
        rcases List.mem_cons.mp hx with rfl | hx
        · exact List.mem_cons_self _ _
        · exact List.mem_cons_of_mem _ (ih r c' hc' x hx)
      · intro x hx
        exact List.mem_cons_of_mem _ (ih (r + 1) c hc x hx)

theorem powersetList_subset {α : Type} (l : List α) (c : List α)
    (hc : c ∈ powersetList l) : ∀ x ∈ c, x ∈ l := by
  unfold powersetList at hc
  rw [List.mem_join] at hc
  obtain ⟨m, hm, hcm⟩ := hc
  rw [List.mem_map] at hm
  obtain ⟨r, _, rfl⟩ := hm
  exact combinations_subset l r c hcm

theorem foldl_preserve {α β : Type} (P : β → Prop) (f : β → α → β) (l : List α)
    (init : β) (h0 : P init) (hstep : ∀ b a, a ∈ l → P b → P (f b a)) :
    P (l.foldl f init) := by
  induction l generalizing init with
  | nil => exact h0
  | cons a rest ih =>
    exact ih (f init a) (hstep init a (List.mem_cons_self _ _) h0)
      (fun b x hx hb => hstep b x (List.mem_cons_of_mem _ hx) hb)

namespace BFState

theorem validColoring_empty (s : BFState) : s.validColoring ∅ = true := by
  unfold validColoring
  rw [List.all_eq_true]
  intro v _
  simp

/-- The coloring selected by `_update_coloring_incrementally` is always a
valid coloring included in the node set. -/
theorem updateColoring_valid (s : BFState) :
    s.validColoring (s.updateColoring).coloring = true ∧
      (s.updateColoring).coloring ⊆ s.nodes.toFinset := by
  show s.validColoring ((powersetList s.nodes).foldl _ ∅) = true ∧
    ((powersetList s.nodes).foldl _ ∅) ⊆ s.nodes.toFinset
  apply foldl_preserve
    (P := fun C => s.validColoring C = true ∧ C ⊆ s.nodes.toFinset)
  · exact ⟨validColoring_empty s, Finset.empty_subset _⟩
  · intro C c hc hC
    dsimp only
    split
    · next h =>
      refine ⟨h.1, ?_⟩
      intro x hx
      rw [List.mem_toFinset] at hx
      exact List.mem_toFinset.mpr (powersetList_subset s.nodes c hc x hx)
    · next => exact hC

/-- The combined invariant carried through `add`. -/
def ColoringInv (s : BFState) : Prop :=
  s.validColoring s.coloring = true ∧ s.coloring ⊆ s.nodes.toFinset

theorem addBlock_inv (s : BFState) (b : Block) : ColoringInv (s.addBlock b) := by
  unfold addBlock
  exact updateColoring_valid _

theorem foldl_addBlock_inv :
    ∀ (blocks : List Block) (s : BFState), ColoringInv s →
      ColoringInv (blocks.foldl addBlock s) := by
  intro blocks
  induction blocks with
  | nil => exact fun s hs => hs
  | cons b rest ih => exact fun s hs => ih (s.addBlock b) (addBlock_inv s b)

theorem addAll_inv (k : ℤ) (blocks : List Block) : ColoringInv (addAll k blocks) := by
  unfold addAll
  refine foldl_addBlock_inv blocks (init k) ⟨validColoring_empty _, ?_⟩
  intro x hx
  simp [init] at hx

theorem addAll_k (k : ℤ) (blocks : List Block) : (addAll k blocks).k = k := by
  unfold addAll
  have h : ∀ (bs : List Block) (s : BFState), (bs.foldl addBlock s).k = s.k := by
    intro bs
    induction bs with
    | nil => exact fun s => rfl
    | cons b rest ih =>
      intro s
      rw [List.foldl_cons, ih]
      rfl
  exact h blocks (init k)

end BFState

/-- **C2 (amended).**  The claimed anticone invariant fails for the greedy
engine (`C2_counterexample`) but holds for the brute-force engine, whose
coloring is recomputed on every add: for every parameter `k`, every block
sequence and every block `b` blue under the resulting global coloring, the
number of blue blocks in `b`'s anticone is at most `k`. -/
theorem C2_bruteforce_anticone_bound (k : ℤ) (blocks : List Block) (b : ℕ)
    (hb : b ∈ (BFState.addAll k blocks).coloring) :
    (((BFState.addAll k blocks).anticone b ∩ (BFState.addAll k blocks).coloring).card : ℤ)
      ≤ k := by
  obtain ⟨hv, hsub⟩ := BFState.addAll_inv k blocks
  unfold BFState.validColoring at hv
  rw [List.all_eq_true] at hv
  have hbn : b ∈ (BFState.addAll k blocks).nodes :=
    List.mem_toFinset.mp (hsub hb)
  have hvb := hv b hbn
  rw [decide_eq_true_eq] at hvb
  rw [BFState.addAll_k] at hvb
  rcases Classical.em
    ((((BFState.addAll k blocks).anticone b ∩ (BFState.addAll k blocks).coloring).card : ℤ) ≤ k)
    with h | h
  · exact h
  · exact absurd ⟨hb, lt_of_not_le h⟩ hvb

/-- Witness for `C2_bruteforce_anticone_bound`: the two-block chain with
`k = 0` and the blue genesis. -/
theorem C2_bruteforce_anticone_bound_witness :
    0 ∈ (BFState.addAll 0 [⟨0, ∅⟩, ⟨1, {0}⟩]).coloring ∧
    (((BFState.addAll 0 [⟨0, ∅⟩, ⟨1, {0}⟩]).anticone 0 ∩
        (BFState.addAll 0 [⟨0, ∅⟩, ⟨1, {0}⟩]).coloring).card : ℤ) ≤ 0 :=
  ⟨by decide, C2_bruteforce_anticone_bound 0 [⟨0, ∅⟩, ⟨1, {0}⟩] 0 (by decide)⟩

/-- **C3 (the code against its own tests).**  Concrete evaluation of
`GreedyPHANTOM.get_depth` on the failing input: the chain `0 ← 1` (and the
four-block DAG `0 ← 1,2 ← 3`) with `k = 4`.  Because `self._antipast` is
the eagerly evaluated empty set (greedy_phantom.py line 64), every
blue-diff-past is empty, so the chain walk never finds any id and
`get_depth` returns `0` for every present id, while the repository's own
test suite asserts `get_depth(genesis) == 1` after the two-block chain and
`== 3` after the four-block DAG (test_greedy_coloring.py lines 79 and
116).  The absent-id sentinel `-inf` (here `⊥`) does work as claimed. -/
theorem C3_get_depth_eval :
    (GState.gAddAll 4 [⟨0, ∅⟩, ⟨1, {0}⟩]).toOption.map
        (fun s => (s.getDepth 0, s.getDepth 1, s.getDepth 99)) =
      some (((0 : ℤ) : WithBot ℤ), ((0 : ℤ) : WithBot ℤ), (⊥ : WithBot ℤ)) ∧
    (GState.gAddAll 4 [⟨0, ∅⟩, ⟨1, {0}⟩, ⟨2, {0}⟩, ⟨3, {1, 2}⟩]).toOption.map
        (fun s => (s.getDepth 0, s.getDepth 1, s.getDepth 2, s.getDepth 3)) =
      some (((0 : ℤ) : WithBot ℤ), ((0 : ℤ) : WithBot ℤ), ((0 : ℤ) : WithBot ℤ), ((0 : ℤ) : WithBot ℤ)) := by
  refine ⟨by decide, by decide⟩

/-- **C4 counterexample.**  In the Blockchain variant, presence is judged
by membership in the longest chain: after inserting `0`, `1 ← 0`, `2 ← 0`,
the block `2` is present in the DAG but off the longest chain, and
`is_a_before_b(2, 2)` returns `None` — refuting "returns a boolean
whenever at least one of them is present". -/
theorem C4_counterexample :
    (BCState.addAll forkBlocks).containsGid 2 = true ∧
    (BCState.addAll forkBlocks).is_a_before_b 2 2 = none := by
  refine ⟨by decide, by decide⟩

/-- **C4 (amended).**  For the PHANTOM engines (brute-force and greedy)
`is_a_before_b` returns `None` exactly when neither id is present in the
DAG; for the Blockchain variant it returns `None` exactly when neither id
is on the longest chain (presence in the DAG alone does not suffice). -/
theorem C4_is_a_before_b_null_cases :
    (∀ (s : BFState) (a b : ℕ),
      s.is_a_before_b a b = none ↔
        (s.containsGid a = false ∧ s.containsGid b = false)) ∧
    (∀ (s : GState) (a b : ℕ),
      s.gIsABeforeB a b = none ↔
        (s.containsGid a = false ∧ s.containsGid b = false)) ∧
    (∀ (s : BCState) (a b : ℕ),
      s.is_a_before_b a b = none ↔ (a ∉ s.longestChain ∧ b ∉ s.longestChain)) := by
  refine ⟨?_, ?_, ?_⟩
  · intro s a b
    unfold BFState.is_a_before_b
    by_cases ha : s.containsGid a = true <;> by_cases hb : s.containsGid b = true <;>
      simp [ha, hb]
  · intro s a b
    unfold GState.gIsABeforeB
    by_cases ha : s.containsGid a = true <;> by_cases hb : s.containsGid b = true <;>
      simp [ha, hb]
  · intro s a b
    unfold BCState.is_a_before_b
    by_cases ha : a ∈ s.longestChain <;> by_cases hb : b ∈ s.longestChain <;>
      simp [ha, hb]

/-- **C10 counterexample.**  Adding a block with a declared parent that was
never added into a `GreedyPHANTOM` raises (`KeyError` in `_get_bluest`,
reading the missing parent's blue-number attribute), so `add` does not
complete and no post-`add` state exists in which the parent is contained:
the claim fails for the greedy (and hence the competing-chain) variant. -/
theorem C10_counterexample :
    (GState.gAddAll 4 [⟨1, {99}⟩]).toOption = none := by decide

/-- **C10 (amended).**  For the brute-force PHANTOM, `add` silently creates
a stub node for every declared parent (as `networkx.add_edge` does), so
immediately after `add(b)` every declared parent id is contained; for the
greedy variants, `add` with any never-added parent raises instead of
completing. -/
theorem C10_stub_parents :
    (∀ (s : BFState) (b : Block), ∀ p ∈ b.parents,
      (s.addBlock b).containsGid p = true) ∧
    (∀ (s : GState) (b : Block), (∃ p ∈ b.parents, s.getRec p = none) →
      (s.gAddBlock b).toOption = none) := by
  constructor
  · intro s b p hp
    unfold BFState.addBlock BFState.containsGid
    dsimp only
    rw [decide_eq_true_eq]
    have hmem : ∀ (l : List ℕ) (ns : List ℕ), p ∈ l ∨ p ∈ ns →
        p ∈ l.foldl (fun ns q => if q ∈ ns then ns else ns ++ [q]) ns := by
      intro l
      induction l with
      | nil =>
        intro ns h
        rcases h with h | h
        · cases h
        · exact h
      | cons q qs ih =>
        intro ns h
        rw [List.foldl_cons]
        by_cases hq : q ∈ ns
        · rw [if_pos hq]
          apply ih
          rcases h with h | h
          · rcases List.mem_cons.mp h with rfl | h
            · exact Or.inr hq
            · exact Or.inl h
          · exact Or.inr h
        · rw [if_neg hq]
          apply ih
          rcases h with h | h
          · rcases List.mem_cons.mp h with rfl | h
            · exact Or.inr (List.mem_append_right _ (List.mem_singleton_self _))
            · exact Or.inl h
          · exact Or.inr (List.mem_append_left _ h)
    exact hmem _ _ (Or.inl (mem_sortAsc.mpr hp))
  · intro s b hp
    obtain ⟨p, hpb, hpnone⟩ := hp
    unfold GState.gAddBlock
    have hany : (sortAsc b.parents).any (fun q => (s.getRec q).isNone) = true := by
      rw [List.any_eq_true]
      exact ⟨p, mem_sortAsc.mpr hpb, by rw [hpnone]; rfl⟩
    simp only [hany, if_pos]
    rfl

/-- Witness for `C10_stub_parents`: the brute-force engine contains the
never-added parent `99` right after the add, and the greedy engine's add
fails on the same block. -/
theorem C10_stub_parents_witness :
    ((BFState.init 4).addBlock ⟨1, {99}⟩).containsGid 99 = true ∧
    ((GState.ginit 4).gAddBlock ⟨1, {99}⟩).toOption = none :=
  ⟨C10_stub_parents.1 (BFState.init 4) ⟨1, {99}⟩ 99 (by decide),
   C10_stub_parents.2 (GState.ginit 4) ⟨1, {99}⟩ ⟨99, by decide, by decide⟩⟩

theorem lookupList_setAssoc_found {α : Type} (g : ℕ) (v : α) :
    ∀ (l : List (ℕ × α)), (l.find? (fun p => p.1 = g)).isSome = true →
      lookupList (l.map (fun p => if p.1 = g then (g, v) else p)) g = some v := by
  intro l
  induction l with
  | nil => intro h; simp [List.find?] at h
  | cons a rest ih =>
    intro h
    by_cases ha : a.1 = g
    · simp only [List.map_cons, if_pos ha]
      unfold lookupList
      rw [List.find?_cons_of_pos _ (by simp)]
      rfl
    · simp only [List.map_cons, if_neg ha]
      unfold lookupList
      rw [List.find?_cons_of_neg _ (by simpa using ha)]
      rw [List.find?_cons_of_neg _ (by simpa using ha)] at h
      exact ih h

theorem lookupList_append_found {α : Type} (g : ℕ) (v : α) :
    ∀ (l : List (ℕ × α)), (l.find? (fun p => p.1 = g)).isSome = false →
      lookupList (l ++ [(g, v)]) g = some v := by
  intro l
  induction l with
  | nil =>
    intro _
    unfold lookupList
    rw [List.nil_append, List.find?_cons_of_pos _ (by simp)]
    rfl
  | cons a rest ih =>
    intro h
    by_cases ha : a.1 = g
    · rw [List.find?_cons_of_pos _ (by simpa using ha)] at h
      simp at h
    · unfold lookupList
      rw [List.cons_append, List.find?_cons_of_neg _ (by simpa using ha)]
      rw [List.find?_cons_of_neg _ (by simpa using ha)] at h
      exact ih h

theorem lookupList_setAssoc_self {α : Type} (l : List (ℕ × α)) (g : ℕ) (v : α) :
    lookupList (setAssoc l g v) g = some v := by
  unfold setAssoc
  by_cases h : (l.find? (fun p => p.1 = g)).isSome = true
  · rw [if_pos h]
    exact lookupList_setAssoc_found g v l h
  · rw [if_neg h]
    exact lookupList_append_found g v l (Bool.not_eq_true _ ▸ h)


theorem lookupList_map_subst_ne {α : Type} (g p : ℕ) (v : α) (hne : p ≠ g) :
    ∀ (l : List (ℕ × α)),
      lookupList (l.map (fun q => if q.1 = g then (g, v) else q)) p = lookupList l p := by
  intro l
  induction l with
  | nil => rfl
  | cons a rest ih =>
    simp only [List.map_cons]
    unfold lookupList at ih ⊢
    by_cases ha : a.1 = p
    · have hag : ¬ a.1 = g := fun h => hne (ha ▸ h)
      rw [if_neg hag, List.find?_cons_of_pos _ (by simpa using ha),
        List.find?_cons_of_pos _ (by simpa using ha)]
    · have hhd : ¬ ((if a.1 = g then (g, v) else a).1 = p) := by
        split
        · exact fun h => hne h.symm
        · exact ha
      rw [List.find?_cons_of_neg _ (by simpa using hhd),
        List.find?_cons_of_neg _ (by simpa using ha)]
      exact ih

theorem lookupList_append_ne {α : Type} (g p : ℕ) (v : α) (hne : p ≠ g) :
    ∀ (l : List (ℕ × α)), lookupList (l ++ [(g, v)]) p = lookupList l p := by
  intro l
  induction l with
  | nil =>
    unfold lookupList
    rw [List.nil_append,
      List.find?_cons_of_neg _ (by simpa using fun h : g = p => hne h.symm)]
  | cons a rest ih =>
    unfold lookupList at ih ⊢
    by_cases ha : a.1 = p
    · rw [List.cons_append, List.find?_cons_of_pos _ (by simpa using ha),
        List.find?_cons_of_pos _ (by simpa using ha)]
    · rw [List.cons_append, List.find?_cons_of_neg _ (by simpa using ha),
        List.find?_cons_of_neg _ (by simpa using ha)]
      exact ih

theorem lookupList_setAssoc_ne {α : Type} (g p : ℕ) (v : α) (hne : p ≠ g)
    (l : List (ℕ × α)) : lookupList (setAssoc l g v) p = lookupList l p := by
  unfold setAssoc
  split
  · exact lookupList_map_subst_ne g p v hne l
  · exact lookupList_append_ne g p v hne l

theorem sortAsc_empty : sortAsc (∅ : Finset ℕ) = [] := rfl

theorem sortAsc_pairwise (s : Finset ℕ) : (sortAsc s).Pairwise (· < ·) := by
  unfold sortAsc
  split
  · exact List.Pairwise.nil
  · exact (List.pairwise_lt_range _).sublist (List.filter_sublist _)

theorem pyMaxFold (key : ℕ → ℕ) :
    ∀ (xs : List ℕ) (x r : ℕ),
      r = xs.foldl (fun best y => if key y > key best then y else best) x →
      (x :: xs).Pairwise (· < ·) →
      r ∈ x :: xs ∧ (∀ z ∈ x :: xs, key z ≤ key r) ∧
        (∀ z ∈ x :: xs, key z = key r → r ≤ z) := by
  intro xs
  induction xs with
  | nil =>
    intro x r hr _
    rw [List.foldl_nil] at hr
    refine ⟨by rw [hr]; exact List.mem_cons_self x [], ?_, ?_⟩
    · intro z hz
      rcases List.mem_cons.mp hz with h | h
      · rw [h, hr]
      · simp at h
    · intro z hz _
      rcases List.mem_cons.mp hz with h | h
      · rw [h, hr]
      · simp at h
  | cons y ys ih =>
    intro x r hr hp
    rw [List.foldl_cons] at hr
    rw [List.pairwise_cons] at hp
    obtain ⟨hx_lt, hp2⟩ := hp
    have hxy : x < y := hx_lt y (List.mem_cons_self y ys)
    have hp' : ((if key y > key x then y else x) :: ys).Pairwise (· < ·) := by
      rw [List.pairwise_cons]
      rw [List.pairwise_cons] at hp2
      obtain ⟨hy_lt, hys⟩ := hp2
      refine ⟨?_, hys⟩
      intro z hz
      split
      · exact hy_lt z hz
      · exact hx_lt z (List.mem_cons_of_mem y hz)
    obtain ⟨hmem, hmax, hfirst⟩ := ih (if key y > key x then y else x) r hr hp'
    refine ⟨?_, ?_, ?_⟩
    · rcases List.mem_cons.mp hmem with h | h
      · by_cases hb : key y > key x
        · rw [if_pos hb] at h
          rw [h]
          exact List.mem_cons_of_mem x (List.mem_cons_self y ys)
        · rw [if_neg hb] at h
          rw [h]
          exact List.mem_cons_self x _
      · exact List.mem_cons_of_mem x (List.mem_cons_of_mem y h)
    · intro z hz
      have hxb := hmax (if key y > key x then y else x)
        (List.mem_cons_self _ ys)
      rcases List.mem_cons.mp hz with h | h
      · rw [h]
        by_cases hb : key y > key x
        · rw [if_pos hb] at hxb
          omega
        · rw [if_neg hb] at hxb
          omega
      rcases List.mem_cons.mp h with h | h
      · rw [h]
        by_cases hb : key y > key x
        · rw [if_pos hb] at hxb
          omega
        · rw [if_neg hb] at hxb
          omega
      · exact hmax z (List.mem_cons_of_mem _ h)
    · intro z hz hkey
      have hxb := hmax (if key y > key x then y else x)
        (List.mem_cons_self _ ys)
      rcases List.mem_cons.mp hz with h | h
      · rw [h] at hkey ⊢
        by_cases hb : key y > key x
        · rw [if_pos hb] at hxb
          omega
        · have hfx := hfirst (if key y > key x then y else x)
            (List.mem_cons_self _ ys) (by rw [if_neg hb]; exact hkey)
          rw [if_neg hb] at hfx
          exact hfx
      rcases List.mem_cons.mp h with h | h
      · rw [h] at hkey ⊢
        by_cases hb : key y > key x
        · have hfx := hfirst (if key y > key x then y else x)
            (List.mem_cons_self _ ys) (by rw [if_pos hb]; exact hkey)
          rw [if_pos hb] at hfx
          exact hfx
        · have hkx : key (if key y > key x then y else x) = key r := by
            rw [if_neg hb] at hxb ⊢
            omega
          have hfx := hfirst (if key y > key x then y else x)
            (List.mem_cons_self _ ys) hkx
          rw [if_neg hb] at hfx
          omega
      · exact hfirst z (List.mem_cons_of_mem _ h) hkey

theorem GState.recOf_setRec_self (s : GState) (g : ℕ) (n : GNode) :
    (s.setRec g n).recOf g = n := by
  unfold GState.setRec GState.recOf GState.getRec
  dsimp only
  rw [lookupList_setAssoc_self]
  rfl

theorem GState.recOf_eq_of_recs_eq {s t : GState} (h : s.recs = t.recs) (g : ℕ) :
    s.recOf g = t.recOf g := by
  unfold GState.recOf GState.getRec
  rw [h]

theorem GState.foldl_recs {α : Type} {f : GState → α → GState}
    (h : ∀ st a, (f st a).recs = st.recs) :
    ∀ (l : List α) (init : GState), (l.foldl f init).recs = init.recs := by
  intro l
  induction l with
  | nil => intro init; rfl
  | cons a rest ih =>
    intro init
    rw [List.foldl_cons, ih, h]

theorem GState.updatePastColoring_recs (s : GState) (t : ℕ) :
    (s.updatePastColoringAccordingTo t).recs = s.recs := by
  unfold GState.updatePastColoringAccordingTo
  dsimp only
  rw [GState.foldl_recs ?h5, GState.foldl_recs ?h4]
  case h5 => intro st c; rfl
  case h4 =>
    intro st e
    dsimp only
    split
    · rfl
    · split <;> rfl
  split
  · split <;> rfl
  · rfl

theorem GState.updateMaxColoring_recs (s : GState) (g : ℕ) :
    (s.updateMaxColoring g).recs = s.recs := by
  unfold GState.updateMaxColoring
  split
  · dsimp only
    split <;> exact GState.updatePastColoring_recs s g
  · rfl

theorem GState.updateDiff_cp (s : GState) (g : ℕ) :
    ((s.updateDiffColoringOfBlock g).recOf g).coloringParent =
      (s.recOf g).coloringParent := by
  unfold GState.updateDiffColoringOfBlock
  dsimp only
  rw [GState.recOf_setRec_self]

theorem GState.updateTopo_cp (s : GState) (g : ℕ) :
    ((s.updateTopologicalOrderOfBlock g).recOf g).coloringParent =
      (s.recOf g).coloringParent := by
  unfold GState.updateTopologicalOrderOfBlock GState.updateSelfOrderIndex
  dsimp only
  rw [GState.recOf_setRec_self]
  dsimp only
  rw [GState.recOf_setRec_self]

theorem sortAsc_eq_nil_iff {s : Finset ℕ} : sortAsc s = [] ↔ s = ∅ := by
  constructor
  · intro h
    rw [Finset.eq_empty_iff_forall_not_mem]
    intro x hx
    have := mem_sortAsc.mpr hx
    rw [h] at this
    simp at this
  · intro h
    rw [h]
    rfl

theorem GState.getBluest_spec (s0 sref : GState) (parents : Finset ℕ)
    (hrec : ∀ p ∈ parents, s0.recOf p = sref.recOf p) :
    (parents = ∅ → s0.getBluest parents = none) ∧
    (parents ≠ ∅ → ∃ c, s0.getBluest parents = some c ∧ c ∈ parents ∧
      (∀ p ∈ parents, (sref.recOf p).blueNumber ≤ (sref.recOf c).blueNumber) ∧
      (∀ p ∈ parents, (sref.recOf p).blueNumber = (sref.recOf c).blueNumber →
        c ≤ p)) := by
  constructor
  · intro h
    rw [h]
    rfl
  · intro hne
    unfold GState.getBluest GState.getExtremeBlue
    cases hsp : sortAsc parents with
    | nil => exact absurd (sortAsc_eq_nil_iff.mp hsp) hne
    | cons x xs =>
      have hpw : (x :: xs).Pairwise (· < ·) := by
        rw [← hsp]; exact sortAsc_pairwise parents
      obtain ⟨hm, hmax, hfirst⟩ :=
        pyMaxFold (fun y => (s0.recOf y).blueNumber) xs x
          (xs.foldl
            (fun best y =>
              if (s0.recOf y).blueNumber > (s0.recOf best).blueNumber then y
              else best) x)
          rfl hpw
      have hmemParents : ∀ z ∈ x :: xs, z ∈ parents := by
        intro z hz
        rw [← hsp] at hz
        exact mem_sortAsc.mp hz
      refine ⟨_, rfl, hmemParents _ hm, ?_, ?_⟩
      · intro p hp
        have hpmem : p ∈ x :: xs := by
          rw [← hsp]; exact mem_sortAsc.mpr hp
        have := hmax p hpmem
        rw [hrec p hp, hrec _ (hmemParents _ hm)] at this
        exact this
      · intro p hp heq
        have hpmem : p ∈ x :: xs := by
          rw [← hsp]; exact mem_sortAsc.mpr hp
        refine hfirst p hpmem ?_
        show (s0.recOf p).blueNumber = (s0.recOf _).blueNumber
        rw [hrec p hp, hrec _ (hmemParents _ hm)]
        exact heq

theorem GState.recOf_setRec_uncolored (s : GState) (g : ℕ) (n : GNode)
    (u : LazySet) :
    ({ s.setRec g n with uncoloredUnorderedAntipast := u }).recOf g = n := by
  unfold GState.setRec GState.recOf GState.getRec
  dsimp only
  rw [lookupList_setAssoc_self]
  rfl

/-- C7: after a successful `GreedyPHANTOM.add` of a block whose id is not
among its own parents, the coloring parent recorded for the block is `none`
when the block has no parents, and otherwise it is a parent with the
maximal blue number, ties broken towards the smallest id (the source sorts
the parent ids ascending and Python's `max` keeps the first maximum). -/
theorem C7_coloring_parent_bluest (s : GState) (b : Block) (s' : GState)
    (hself : b.gid ∉ b.parents)
    (hadd : s.gAddBlock b = Except.ok s') :
    (b.parents = ∅ → (s'.recOf b.gid).coloringParent = none) ∧
    (b.parents ≠ ∅ → ∃ c, (s'.recOf b.gid).coloringParent = some c ∧
      c ∈ b.parents ∧
      (∀ p ∈ b.parents, (s.recOf p).blueNumber ≤ (s.recOf c).blueNumber) ∧
      (∀ p ∈ b.parents, (s.recOf p).blueNumber = (s.recOf c).blueNumber →
        c ≤ p)) := by
  unfold GState.gAddBlock at hadd
  dsimp only at hadd
  split at hadd
  · exact absurd hadd (by intro hh; injection hh)
  · injection hadd with hs'
    subst hs'
    rw [GState.updateTopo_cp,
      GState.recOf_eq_of_recs_eq (GState.updateMaxColoring_recs _ _),
      GState.updateDiff_cp, GState.recOf_setRec_uncolored]
    refine GState.getBluest_spec _ s b.parents ?_
    intro p hp
    have hne : p ≠ b.gid := fun h => hself (h ▸ hp)
    unfold GState.recOf GState.getRec
    dsimp only
    rw [lookupList_setAssoc_ne _ _ _ hne]

/-- Witness for C7 at a concrete input: adding block `2` with parents
`{0, 1}` to the two-block demo state. -/
theorem C7_coloring_parent_bluest_witness :
    ∃ c, (gDemoState2.recOf 2).coloringParent = some c ∧
      c ∈ ({0, 1} : Finset ℕ) ∧
      (∀ p ∈ ({0, 1} : Finset ℕ),
        (gDemoState.recOf p).blueNumber ≤ (gDemoState.recOf c).blueNumber) ∧
      (∀ p ∈ ({0, 1} : Finset ℕ),
        (gDemoState.recOf p).blueNumber = (gDemoState.recOf c).blueNumber →
          c ≤ p) :=
  (C7_coloring_parent_bluest gDemoState ⟨2, {0, 1}⟩ gDemoState2
    (by decide) (by rfl)).2 (by simp)

theorem CCState.ccDrain_ok_shape (s d : CCState) (h : s.ccDrain = Except.ok d) :
    d.main = s.main ∧ d.competingChainTipGid = s.competingChainTipGid ∧
    d.currentlyAttackedBlockGid = s.currentlyAttackedBlockGid ∧
    d.firstParallelBlockGid = s.firstParallelBlockGid ∧
    d.maximalDepthDifference = s.maximalDepthDifference ∧
    d.maliciousQueue = [] := by
  unfold CCState.ccDrain at h
  split at h
  · injection h with h1
    subst h1
    exact ⟨rfl, rfl, rfl, rfl, rfl, rfl⟩
  · exact absurd h (by intro hh; injection hh)

theorem CCState.ccDrain_nil (s : CCState) (hq : s.maliciousQueue = []) :
    s.ccDrain = Except.ok { s with maliciousQueue := [] } := by
  unfold CCState.ccDrain
  rw [hq]
  rfl

theorem CCState.ccAddFinal_stop (t2 t' : CCState) (gid : ℕ) (bp : Finset ℕ)
    (hfail : t2.ccDidAttackFail = false)
    (hnb : ¬(some gid = t2.competingChainTipGid ∨
      t2.main.isABluerThanB (t2.competingChainTipGid.getD 0) gid = true))
    (hviable : t2.ccIsAttackViable = false)
    (hfin : CCState.ccAddFinal t2 gid bp = Except.ok t') :
    t'.competingChainTipGid = none ∧ t'.firstParallelBlockGid = none ∧
    t'.maliciousQueue = [] ∧
    ∃ d, t2.ccDrain = Except.ok d ∧ t'.honest = d.honest := by
  unfold CCState.ccAddFinal at hfin
  rw [hfail] at hfin
  rw [if_neg Bool.false_ne_true] at hfin
  dsimp only at hfin
  rw [if_neg hnb] at hfin
  have hv4 : ({ t2 with
      competingChainTipAntipast := insert gid t2.competingChainTipAntipast } :
      CCState).ccIsAttackViable = false := hviable
  rw [hv4] at hfin
  rw [if_neg Bool.false_ne_true] at hfin
  unfold CCState.ccStopAttack CCState.ccDrain at hfin
  dsimp only at hfin
  split at hfin
  · next heqd =>
    split at heqd
    · next h heqf =>
      injection heqd with hd1
      subst hd1
      injection hfin with hf1
      subst hf1
      refine ⟨rfl, rfl, rfl, { t2 with honest := h, maliciousQueue := [] },
        ?_, rfl⟩
      unfold CCState.ccDrain
      rw [heqf]
    · exact absurd heqd (by intro hh; injection hh)
  · exact absurd hfin (by intro hh; injection hh)

/-- C8: during an attack, when an `add` reaches the viability check (the
new block neither is the competing chain tip nor keeps it the bluest) and
the blue-number gap between the DAG's coloring tip and the competing
chain tip exceeds `maximal_depth_difference`, the attack is stopped: the
pending malicious queue is drained into the honest sub-DAG and both
`competing_chain_tip_gid` and `first_parallel_block_gid` become `None`. -/
theorem C8_nonviable_attack_stopped (s : CCState) (b : Block) (m : Bool)
    (t t' : CCState)
    (hpre : s.ccAddPre b m = Except.ok t)
    (hfail : t.ccDidAttackFail = false)
    (hnb : ¬(some b.gid = t.competingChainTipGid ∨
      t.main.isABluerThanB (t.competingChainTipGid.getD 0) b.gid = true))
    (hdeep : t.maximalDepthDifference <
      ((t.main.recOf (t.main.coloringTipGid.getD 0)).blueNumber : ℤ) -
      ((t.main.recOf (t.competingChainTipGid.getD 0)).blueNumber : ℤ))
    (hadd : s.ccAdd b m = Except.ok t') :
    t'.competingChainTipGid = none ∧ t'.firstParallelBlockGid = none ∧
    t'.maliciousQueue = [] ∧
    ∃ d, t.ccDrain = Except.ok d ∧ t'.honest = d.honest := by
  unfold CCState.ccAdd at hadd
  rw [hpre] at hadd
  replace hadd : t.ccAddPost b.gid b.parents = Except.ok t' := hadd
  unfold CCState.ccAddPost at hadd
  by_cases hs : t.ccDidAttackSucceed = true
  · rw [if_pos hs] at hadd
    split at hadd
    · exact absurd hadd (by intro hh; injection hh)
    · next t2 heq =>
      obtain ⟨hm, hc, hca, hf, hmd, hq⟩ := CCState.ccDrain_ok_shape t t2 heq
      have hfail2 : t2.ccDidAttackFail = false := by
        unfold CCState.ccDidAttackFail at hfail ⊢
        rw [hf, hca]
        exact hfail
      have hnb2 : ¬(some b.gid = t2.competingChainTipGid ∨
          t2.main.isABluerThanB (t2.competingChainTipGid.getD 0) b.gid =
            true) := by
        rw [hc, hm]
        exact hnb
      have hv2 : t2.ccIsAttackViable = false := by
        unfold CCState.ccIsAttackViable
        rw [hfail2, if_neg Bool.false_ne_true, hm, hc, hmd]
        exact decide_eq_false (not_le.mpr hdeep)
      obtain ⟨h1, h2, h3, d2, hd2, hh⟩ :=
        CCState.ccAddFinal_stop t2 t' b.gid b.parents hfail2 hnb2 hv2 hadd
      have hdd := CCState.ccDrain_nil t2 hq
      rw [hd2] at hdd
      injection hdd with hdd1
      refine ⟨h1, h2, h3, t2, heq, ?_⟩
      rw [hh, hdd1]
  · rw [if_neg hs] at hadd
    replace hadd : CCState.ccAddFinal t b.gid b.parents = Except.ok t' := hadd
    have hv : t.ccIsAttackViable = false := by
      unfold CCState.ccIsAttackViable
      rw [hfail, if_neg Bool.false_ne_true]
      exact decide_eq_false (not_le.mpr hdeep)
    exact CCState.ccAddFinal_stop t t' b.gid b.parents hfail hnb hv hadd

/-- Witness for C8 at the concrete demo trace: the honest add of block `2`
stops the (never-viable, `maximal_depth_difference = -1`) attack. -/
theorem C8_nonviable_attack_stopped_witness :
    ccStT2.competingChainTipGid = none ∧
    ccStT2.firstParallelBlockGid = none ∧
    ccStT2.maliciousQueue = [] ∧
    ∃ d, ccStT.ccDrain = Except.ok d ∧ ccStT2.honest = d.honest :=
  C8_nonviable_attack_stopped ccSt4 ⟨2, {0}⟩ false ccStT ccStT2
    (by rfl) (by decide) (by decide) (by decide) (by rfl)

/-- C9: on every state of `CompetingChainGreedyPHANTOM`,
`did_attack_succeed` and `did_attack_fail` are never both true, and
`did_attack_succeed` is false whenever `first_parallel_block_gid` or
`currently_attacked_block_gid` is `None` (`did_attack_succeed` checks
`did_attack_fail` first and returns `False` in that case). -/
theorem C9_succeed_fail_exclusive (s : CCState) :
    ¬(s.ccDidAttackSucceed = true ∧ s.ccDidAttackFail = true) ∧
    ((s.firstParallelBlockGid = none ∨ s.currentlyAttackedBlockGid = none) →
      s.ccDidAttackSucceed = false) := by
  obtain ⟨m, h, bh, ct, ca, fp, ap, vp, cd, md, q⟩ := s
  constructor
  · rintro ⟨hs, hf⟩
    cases fp <;> cases ca <;>
      simp [CCState.ccDidAttackSucceed, CCState.ccDidAttackFail] at hs hf
  · intro hnone
    cases fp <;> cases ca <;>
      simp [CCState.ccDidAttackSucceed] at hnone ⊢

/-- Witness for C9 at a concrete state: on the fresh attacker state the
first parallel block is `None`, so the attack did not succeed. -/
theorem C9_succeed_fail_exclusive_witness :
    (CCState.ccInit 4 1 (-1)).ccDidAttackSucceed = false :=
  (C9_succeed_fail_exclusive (CCState.ccInit 4 1 (-1))).2 (Or.inl rfl)
